import Mathlib

/-!
# deploy-checklist-bot — verification of the spec against the source

Shallow embedding of the core of the `deploy-checklist-bot` repository
(TypeScript) and proofs about it.  Each section names the source file it
translates.  JavaScript strings are modelled as Lean `String`s (all the
concrete inputs used below are ASCII, where JS `length` and Lean's
character count agree); JS numbers that the source uses as integers are
modelled as `Nat`.
-/

namespace DeployChecklistBot

/-! ## String plumbing

Kernel-reducible (structurally recursive) implementations of the string
splitting and prefix operations the embedded code needs; they realize the
semantics of JavaScript `split`, `startsWith` and of the anchored splits the
source performs.  (The corresponding core-library `String` functions are
defined by well-founded recursion, which a `decide`/`rfl` evaluation cannot
unfold, so the embedding carries its own.) -/

/-- Split a character list at every occurrence of a separator character
(JavaScript `"a,b".split(",")` semantics: empty pieces kept, output never
empty). -/
def splitChar (c : Char) : List Char → List (List Char)
  | [] => [[]]
  | x :: xs =>
      if x = c then [] :: splitChar c xs
      else
        match splitChar c xs with
        | g :: gs => (x :: g) :: gs
        | [] => [[x]]

/-- Join pieces with a separator character (inverse of `splitChar` on
separator-free pieces). -/
def joinChar (c : Char) : List (List Char) → List Char
  | [] => []
  | [p] => p
  | p :: ps => p ++ c :: joinChar c ps

/-- `s.split(c)` returning strings. -/
def splitOnChar (c : Char) (s : String) : List String :=
  (splitChar c s.data).map String.mk

/-- Fuelled worker for `splitSeq` (the fuel is an upper bound on the number
of characters left; consuming a separator consumes at least one). -/
def splitSeqF (sep : List Char) : Nat → List Char → List (List Char)
  | 0, cs => [cs]
  | fuel + 1, cs =>
      match cs with
      | [] => [[]]
      | c :: rest =>
          if sep ≠ [] && sep.isPrefixOf cs then
            [] :: splitSeqF sep fuel (cs.drop sep.length)
          else
            match splitSeqF sep fuel rest with
            | g :: gs => (c :: g) :: gs
            | [] => [[c]]

/-- Split at every occurrence of a (non-empty) separator sequence
(JavaScript `String.prototype.split` on a plain string). -/
def splitSeq (sep cs : List Char) : List (List Char) :=
  splitSeqF sep cs.length cs

/-- `s.startsWith(pre)`. -/
def strStartsWith (s pre : String) : Bool :=
  pre.data.isPrefixOf s.data

/-! ## Glob matching (the `minimatch` library, as called by the source)

Every call site in the repository invokes `minimatch(file, pattern, { dot:
true })`.  With `dot: true` the special treatment of leading-dot segments is
disabled, so matching is plain per-segment glob matching with `**` as a
globstar.  The patterns appearing in the repository use only literal
characters, `*`, `?` and the standalone globstar segment `**` (no braces,
character classes or extglobs), which is the fragment implemented here. -/

/-- Fuelled worker for `segMatch` (each step shrinks pattern + path). -/
def segMatchF : Nat → List Char → List Char → Bool
  | 0, _, _ => false
  | _ + 1, [], [] => true
  | fuel + 1, '*' :: ps, [] => segMatchF fuel ps []
  | fuel + 1, '*' :: ps, f :: fs =>
      segMatchF fuel ps (f :: fs) || segMatchF fuel ('*' :: ps) fs
  | _ + 1, '?' :: _, [] => false
  | fuel + 1, '?' :: ps, _ :: fs => segMatchF fuel ps fs
  | _ + 1, _ :: _, [] => false
  | _ + 1, [], _ :: _ => false
  | fuel + 1, p :: ps, f :: fs => (p == f) && segMatchF fuel ps fs

/-- Glob matching of a single path segment: `*` matches any (possibly empty)
run of characters, `?` matches exactly one character, anything else matches
itself. -/
def segMatch (ps fs : List Char) : Bool :=
  segMatchF (ps.length + fs.length + 1) ps fs

/-- Fuelled worker for `segsMatch`. -/
def segsMatchF : Nat → List (List Char) → List (List Char) → Bool
  | 0, _, _ => false
  | _ + 1, [], [] => true
  | fuel + 1, ['*', '*'] :: ps, [] => segsMatchF fuel ps []
  | fuel + 1, ['*', '*'] :: ps, f :: fs =>
      segsMatchF fuel ps (f :: fs) || segsMatchF fuel (['*', '*'] :: ps) fs
  | _ + 1, _ :: _, [] => false
  | fuel + 1, p :: ps, f :: fs => segMatch p f && segsMatchF fuel ps fs
  | _ + 1, [], _ :: _ => false

/-- Glob matching of a segment list against a path's segment list.  A
standalone `**` segment matches zero or more whole segments. -/
def segsMatch (ps fs : List (List Char)) : Bool :=
  segsMatchF (ps.length + fs.length + 1) ps fs

/-- `minimatch(file, pattern, { dot: true })` on the glob fragment the
repository uses.  A pattern without `/` must match the whole path, exactly as
in minimatch. -/
def minimatch (file pattern : String) : Bool :=
  segsMatch ((splitOnChar '/' pattern).map String.toList)
    ((splitOnChar '/' file).map String.toList)

/-! ## Content regexes (JavaScript `RegExp`, as used by `src/skills/index.ts`)

The skills' content patterns are tested with `new RegExp(src, flag).test
(diff)`: an unanchored search, i.e. the diff matches iff some substring is in
the pattern's language.  The patterns use literals, escaped literals, `.`,
`.*`, character classes (`[_-]`, `[=:]`, `['"]`, `[^'"]`, `[a-zA-Z0-9]`),
`?`, bounded repetition `{6,}` / `{20,}` / `{36}`, alternation, and an
optional case-insensitive flag written as a `(?i)` prefix on the pattern
string.  That fragment is embedded as an explicit syntax tree and decided
with Brzozowski derivatives. -/

/-- One entry of a regex character class: a single character or a range. -/
inductive ClsItem where
  | ch (c : Char)
  | range (lo hi : Char)
deriving Repr, DecidableEq

/-- Regex syntax tree for the fragment used by the skill content patterns. -/
inductive Re where
  | emp
  | eps
  | lit (c : Char)
  /-- JavaScript `.`: any character except a line terminator. -/
  | dot
  | cls (neg : Bool) (items : List ClsItem)
  | cat (a b : Re)
  | alt (a b : Re)
  | star (a : Re)
deriving Repr, DecidableEq

def clsItemMatches (ci : Bool) (c : Char) : ClsItem → Bool
  | .ch d => if ci then c.toLower == d.toLower else c == d
  | .range lo hi => lo ≤ c && c ≤ hi

def clsMatches (ci neg : Bool) (items : List ClsItem) (c : Char) : Bool :=
  let m := items.any (clsItemMatches ci c)
  if neg then !m else m

def Re.nullable : Re → Bool
  | .emp => false
  | .eps => true
  | .lit _ => false
  | .dot => false
  | .cls _ _ => false
  | .cat a b => a.nullable && b.nullable
  | .alt a b => a.nullable || b.nullable
  | .star _ => true

def Re.deriv (ci : Bool) : Re → Char → Re
  | .emp, _ => .emp
  | .eps, _ => .emp
  | .lit d, c =>
      if (if ci then c.toLower == d.toLower else c == d) then .eps else .emp
  | .dot, c => if c == '\n' || c == '\r' then .emp else .eps
  | .cls neg items, c => if clsMatches ci neg items c then .eps else .emp
  | .cat a b, c =>
      if a.nullable then .alt (.cat (a.deriv ci c) b) (b.deriv ci c)
      else .cat (a.deriv ci c) b
  | .alt a b, c => .alt (a.deriv ci c) (b.deriv ci c)
  | .star a, c => .cat (a.deriv ci c) (.star a)

def Re.matchList (ci : Bool) (r : Re) : List Char → Bool
  | [] => r.nullable
  | c :: cs => (r.deriv ci c).matchList ci cs

/-- Any single character, line terminators included (used to turn the
unanchored `RegExp.test` search into a whole-string match). -/
def reAny : Re := .cls true []

/-- `new RegExp(src, flag).test(s)`: some substring of `s` matches. -/
def reTest (ci : Bool) (r : Re) (s : String) : Bool :=
  Re.matchList ci (.cat (.star reAny) (.cat r (.star reAny))) s.toList

/-- Concatenation of a literal string. -/
def reStr (s : String) : Re :=
  s.toList.foldr (fun c acc => Re.cat (.lit c) acc) .eps

/-- `a|b|...` (an empty list is the empty language). -/
def reAlts : List Re → Re
  | [] => .emp
  | [r] => r
  | r :: rs => .alt r (reAlts rs)

/-- `r{n}`: `n`-fold concatenation. -/
def reRep : Nat → Re → Re
  | 0, _ => .eps
  | n + 1, r => .cat r (reRep n r)

/-- `r{n,}`. -/
def reAtLeast (n : Nat) (r : Re) : Re := .cat (reRep n r) (.star r)

/-- `r?`. -/
def reOpt (r : Re) : Re := .alt .eps r

/-- A positive character class of single characters. -/
def reClsOf (s : String) : Re := .cls false (s.toList.map .ch)

/-- A negated character class of single characters. -/
def reNegClsOf (s : String) : Re := .cls true (s.toList.map .ch)

/-- JavaScript `\s` (the ASCII part; the Unicode spaces never occur in the
strings this development evaluates on). -/
def reSpace : Re :=
  .cls false ([' ', '\t', '\n', '\r', '\x0b', '\x0c'].map ClsItem.ch)

/-- `[a-zA-Z0-9]`. -/
def reAlnum : Re :=
  .cls false [.range 'a' 'z', .range 'A' 'Z', .range '0' '9']

/-! ## Schemas (`src/schemas/config.ts`, `src/schemas/analysis-result.ts`)

Optional Zod fields become `Option`; `z.enum(["high","medium","low"])`
becomes an inductive. -/

/-- `TriggerSchema`. -/
structure Trigger where
  paths : Option (List String) := none
  content : Option (List String) := none
  missing_companion : Option (List String) := none
  include_full_files : Option Bool := none
deriving Repr, DecidableEq

/-- `RuleSchema`. -/
structure Rule where
  id : String
  description : String
  trigger : Trigger
  checks : List String
deriving Repr, DecidableEq

/-- `SettingsSchema` (defaults applied). -/
structure Settings where
  analyze_drafts : Bool := false
  ignore_authors : List String := []
  target_branches : List String := []
  post_empty_checklist : Bool := false
  max_diff_size : Nat := 100000
deriving Repr, DecidableEq

/-- `DeployChecklistConfigSchema` (defaults applied). -/
structure DeployChecklistConfig where
  version : Nat := 1
  settings : Settings := {}
  rules : List Rule := []
  context : Option String := none
deriving Repr, DecidableEq

/-- `DEFAULT_RULES` from `src/schemas/config.ts`. -/
def DEFAULT_RULES : List Rule :=
  [ { id := "default-migration"
      description := "Entity/model change may require database migration"
      trigger :=
        { paths := some ["**/entities/**", "**/models/**", "**/entity/**",
            "**/model/**"]
          content := some ["@Column", "@Entity", "@Table", "createTable",
            "addColumn", "Schema\\.define"]
          missing_companion := some ["**/migrations/**", "**/migrate/**"]
          include_full_files := some true }
      checks :=
        ["Determine if the entity/model changes require a new database migration",
         "If a migration is needed, flag that none was found in this PR"] },
    { id := "default-migration-review"
      description := "Database migration detected"
      trigger := { paths := some ["**/migrations/**"] }
      checks :=
        ["Verify rollback strategy exists",
         "Check that the migration is backward-compatible with currently running code"] },
    { id := "default-env"
      description := "Environment variable change"
      trigger := { content := some ["process\\.env\\.", "os\\.environ"] }
      checks := ["Confirm new env vars are set in deployment targets"] },
    { id := "default-ci"
      description := "CI/CD configuration changed"
      trigger :=
        { paths := some [".github/workflows/**", ".gitlab-ci.yml",
            "Jenkinsfile"] }
      checks := ["Review CI/CD changes for unintended side effects"] },
    { id := "default-deps"
      description := "Dependency change detected"
      trigger :=
        { paths := some ["package-lock.json", "yarn.lock", "Gemfile.lock",
            "poetry.lock", "go.sum"] }
      checks := ["Review dependency changes for security advisories"] } ]

/-- `ChecklistItemSchema`'s `priority` enum. -/
inductive Priority where
  | high
  | medium
  | low
deriving Repr, DecidableEq

/-- `ChecklistItemSchema`. -/
structure ChecklistItem where
  rule_id : String
  check : String
  description : String
  reasoning : String
  priority : Priority
deriving Repr, DecidableEq

/-- `AnalysisResultSchema` (the shape enforced by `SUBMIT_ANALYSIS_TOOL`:
`items` and `summary` required, `uncovered_files` and `open_concerns`
optional). -/
structure AnalysisResult where
  items : List ChecklistItem
  summary : String
  uncovered_files : Option (List String) := none
  open_concerns : Option (List (String × String)) := none
deriving Repr, DecidableEq

/-- `PRMetadata`. -/
structure PRMetadata where
  title : String
  body : String
  baseBranch : String
  headSha : String
  author : String
  isDraft : Bool
  filesChanged : List String
deriving Repr, DecidableEq

/-! ## Config loader (`src/services/config-loader.ts`) -/

/-- `mergeWithDefaults`: user rules with the same id override defaults;
defaults not overridden are kept (`[...defaultsToKeep, ...config.rules]`). -/
def mergeWithDefaults (config : DeployChecklistConfig) : DeployChecklistConfig :=
  let userRuleIds := config.rules.map (·.id)
  let defaultsToKeep := DEFAULT_RULES.filter fun r => !(userRuleIds.contains r.id)
  { config with rules := defaultsToKeep ++ config.rules }

/-! ## Skills (`src/skills/index.ts`)

The `Skill` interface keeps its `detect` method as a function field, exactly
as in the source.  The multi-paragraph `systemContext` prose is inert prompt
data for every property verified here; it is carried abridged (its first
line), with the full text remaining in the source. -/

structure Skill where
  id : String
  name : String
  detect : List String → String → Bool
  systemContext : String
  checks : List String
  paths : List String
  companionPaths : Option (List String) := none
  includeFullFiles : Option Bool := none

/-- `matchesPaths`: some changed file matches some pattern. -/
def matchesPaths (filesChanged : List String) (patterns : List String) : Bool :=
  filesChanged.any fun file => patterns.any fun pattern => minimatch file pattern

/-- A content pattern as handed to `matchesContent`: the source encodes the
case-insensitive flag as a `"(?i)"` prefix of the pattern string and strips
it before building the `RegExp`; here the stripped pattern is carried as a
syntax tree together with that flag. -/
structure ContentPattern where
  ci : Bool := false
  re : Re

/-- `matchesContent`: some pattern's regex finds a match in the diff. -/
def matchesContent (diffContent : String) (patterns : List ContentPattern) : Bool :=
  patterns.any fun p => reTest p.ci p.re diffContent

/-- Content patterns of the `migration-entity` skill's `detect` (all are
escaped literals: `"@Column"`, ..., `"Schema\\.define"`, `"models\\.Model"`,
`"DataTypes\\."`). -/
def migrationEntityContent : List ContentPattern :=
  [⟨false, reStr "@Column"⟩, ⟨false, reStr "@Entity"⟩, ⟨false, reStr "@Table"⟩,
   ⟨false, reStr "createTable"⟩, ⟨false, reStr "addColumn"⟩,
   ⟨false, reStr "Schema.define"⟩, ⟨false, reStr "models.Model"⟩,
   ⟨false, reStr "DataTypes."⟩]

def migrationEntityPaths : List String :=
  ["**/entities/**", "**/models/**", "**/entity/**", "**/model/**"]

/-- Skill 1, `migration-entity`.  Its `detect` returns
`pathMatch || contentMatch` — the `companionPaths` play no part in it. -/
def migrationEntity : Skill :=
  { id := "migration-entity"
    name := "Entity/Model Change Without Migration"
    paths := migrationEntityPaths
    companionPaths := some ["**/migrations/**", "**/migrate/**",
      "db/migrate/**", "alembic/versions/**"]
    includeFullFiles := some true
    detect := fun filesChanged diffContent =>
      matchesPaths filesChanged migrationEntityPaths ||
        matchesContent diffContent migrationEntityContent
    systemContext := "Entity/model change detected. Determine if a database migration is required."
    checks :=
      ["Determine if the entity/model changes require a new database migration",
       "If a migration is needed, verify one exists in this PR — flag if missing",
       "Check for backward compatibility: can old code run against the new schema?"] }

def migrationReviewPaths : List String :=
  ["**/migrations/**", "db/migrate/**", "alembic/versions/**", "**/migrate/**"]

/-- Skill 2, `migration-review`. -/
def migrationReview : Skill :=
  { id := "migration-review"
    name := "Database Migration Safety"
    paths := migrationReviewPaths
    detect := fun filesChanged _ => matchesPaths filesChanged migrationReviewPaths
    systemContext := "Database migration detected."
    checks :=
      ["Verify rollback strategy exists (down() / downgrade() / reverse migration)",
       "Check that the migration is backward-compatible with currently running code",
       "Flag any operations that could cause table locks on large tables",
       "Confirm irreversible operations (drop column, change type) are intentional"] }

/-- Content patterns of `env-vars` (`"process\\.env\\."`, `"os\\.environ"`,
`"ENV\\["`, `"getenv\\("`, `"dotenv"`, `"config\\(\\)"`). -/
def envVarsContent : List ContentPattern :=
  [⟨false, reStr "process.env."⟩, ⟨false, reStr "os.environ"⟩,
   ⟨false, reStr "ENV["⟩, ⟨false, reStr "getenv("⟩, ⟨false, reStr "dotenv"⟩,
   ⟨false, reStr "config()"⟩]

/-- Skill 3, `env-vars` (content-only: `paths` is empty). -/
def envVars : Skill :=
  { id := "env-vars"
    name := "New Environment Variables"
    paths := []
    detect := fun _ diffContent => matchesContent diffContent envVarsContent
    systemContext := "Environment variable usage detected in the diff."
    checks :=
      ["Confirm new environment variables are set in all deployment targets (staging, prod)",
       "Verify .env.example or deployment documentation is updated with new vars",
       "Check if new vars are required at startup — missing required vars cause boot failures"] }

/-- `(?i)(api[_-]?key|access[_-]?token|secret[_-]?key|private[_-]?key|client[_-]?secret)` -/
def secretsRe1 : Re :=
  reAlts
    [Re.cat (reStr "api") (Re.cat (reOpt (reClsOf "_-")) (reStr "key")),
     Re.cat (reStr "access") (Re.cat (reOpt (reClsOf "_-")) (reStr "token")),
     Re.cat (reStr "secret") (Re.cat (reOpt (reClsOf "_-")) (reStr "key")),
     Re.cat (reStr "private") (Re.cat (reOpt (reClsOf "_-")) (reStr "key")),
     Re.cat (reStr "client") (Re.cat (reOpt (reClsOf "_-")) (reStr "secret"))]

/-- `(?i)(password|passwd|pwd)\s*[=:]\s*['"][^'"]{6,}` -/
def secretsRe2 : Re :=
  Re.cat (reAlts [reStr "password", reStr "passwd", reStr "pwd"])
    (Re.cat (.star reSpace)
      (Re.cat (reClsOf "=:")
        (Re.cat (.star reSpace)
          (Re.cat (reClsOf "'\"") (reAtLeast 6 (reNegClsOf "'\""))))))

/-- `BEGIN (RSA|EC|OPENSSH|PGP) PRIVATE KEY` -/
def secretsRe3 : Re :=
  Re.cat (reStr "BEGIN ")
    (Re.cat (reAlts [reStr "RSA", reStr "EC", reStr "OPENSSH", reStr "PGP"])
      (reStr " PRIVATE KEY"))

/-- Content patterns of `secrets` (the remaining ones are
`sk-[a-zA-Z0-9]{20,}`, `ghp_[a-zA-Z0-9]{36}` and the literal alternation
`vault\.read|secretsmanager|aws_secret`). -/
def secretsContent : List ContentPattern :=
  [⟨true, secretsRe1⟩, ⟨true, secretsRe2⟩, ⟨false, secretsRe3⟩,
   ⟨false, Re.cat (reStr "sk-") (reAtLeast 20 reAlnum)⟩,
   ⟨false, Re.cat (reStr "ghp_") (reRep 36 reAlnum)⟩,
   ⟨false, reAlts [reStr "vault.read", reStr "secretsmanager",
      reStr "aws_secret"]⟩]

/-- Skill 4, `secrets` (content-only). -/
def secrets : Skill :=
  { id := "secrets"
    name := "Credential or Secret Exposure Risk"
    paths := []
    detect := fun _ diffContent => matchesContent diffContent secretsContent
    systemContext := "Look for patterns that suggest credential exposure or rotation needs."
    checks :=
      ["Check for hardcoded credentials, tokens, or private keys in added lines",
       "Verify new secrets manager references have corresponding secrets provisioned",
       "Confirm removed secret references are not still needed by any running code"] }

def apiContractPaths : List String :=
  ["**/routes/**", "**/api/**", "**/controllers/**", "**/*.proto",
   "**/schema.graphql", "**/graphql/schema/**"]

/-- Skill 5, `api-contract`. -/
def apiContract : Skill :=
  { id := "api-contract"
    name := "API Contract Change"
    paths := apiContractPaths
    detect := fun filesChanged _ => matchesPaths filesChanged apiContractPaths
    systemContext := "API contract changes are either breaking or non-breaking."
    checks :=
      ["Classify each endpoint change as breaking or non-breaking",
       "For breaking changes, verify consumer teams (frontend, other services) are notified",
       "Check that generated clients (proto, GraphQL) are regenerated in this PR",
       "Verify backward compatibility or versioning strategy for breaking changes"] }

def apiSchemaPaths : List String :=
  ["openapi.yml", "openapi.yaml", "swagger.yml", "swagger.yaml",
   "**/openapi/**", "**/swagger/**", "**/*.proto", "**/schema.graphql"]

/-- Skill 6, `api-schema`. -/
def apiSchema : Skill :=
  { id := "api-schema"
    name := "API Schema File Change"
    paths := apiSchemaPaths
    detect := fun filesChanged _ => matchesPaths filesChanged apiSchemaPaths
    systemContext := "API schema definition file changed (OpenAPI/Swagger, Protobuf, GraphQL schema)."
    checks :=
      ["Verify breaking schema changes are intentional and consumers are prepared",
       "Check that code generation has been re-run and generated files are committed",
       "Confirm schema version is bumped appropriately for breaking changes"] }

def configurationPaths : List String :=
  ["**/config/**", "*.config.ts", "*.config.js", "*.config.mjs", "app.yml",
   "app.yaml", "settings.py", "application.yml", "application.yaml",
   "appsettings.json"]

/-- Content patterns of `configuration` (`"feature[_-]?flag"` plus the
literals `featureFlag`, `FEATURE_`, `LaunchDarkly`, `unleash`, `flipper`,
`rollout`). -/
def configurationContent : List ContentPattern :=
  [⟨false, Re.cat (reStr "feature") (Re.cat (reOpt (reClsOf "_-")) (reStr "flag"))⟩,
   ⟨false, reStr "featureFlag"⟩, ⟨false, reStr "FEATURE_"⟩,
   ⟨false, reStr "LaunchDarkly"⟩, ⟨false, reStr "unleash"⟩,
   ⟨false, reStr "flipper"⟩, ⟨false, reStr "rollout"⟩]

/-- Skill 7, `configuration`. -/
def configuration : Skill :=
  { id := "configuration"
    name := "Configuration or Feature Flag Change"
    paths := configurationPaths
    detect := fun filesChanged diffContent =>
      matchesPaths filesChanged configurationPaths ||
        matchesContent diffContent configurationContent
    systemContext := "Configuration or feature flag change detected."
    checks :=
      ["Verify new configuration keys are set in all target environments",
       "Check that changed defaults are intentional and documented",
       "For feature flags, confirm rollout strategy (default on/off, targeting) is intentional",
       "Ensure removed configuration is not still referenced by running code"] }

/-- Content patterns of `data-access` (`"SELECT .* FROM"`, `"INSERT INTO"`,
`"UPDATE .* SET"`, `"DELETE FROM"`, `"\\.findAll\\("`, `"\\.findMany\\("`,
`"\\.query\\("`, `"WHERE .* LIKE"`, `"for.*await.*find"`,
`"forEach.*query"`, `"N\\+1"`). -/
def dataAccessContent : List ContentPattern :=
  [⟨false, Re.cat (reStr "SELECT ") (Re.cat (.star .dot) (reStr " FROM"))⟩,
   ⟨false, reStr "INSERT INTO"⟩,
   ⟨false, Re.cat (reStr "UPDATE ") (Re.cat (.star .dot) (reStr " SET"))⟩,
   ⟨false, reStr "DELETE FROM"⟩,
   ⟨false, reStr ".findAll("⟩, ⟨false, reStr ".findMany("⟩,
   ⟨false, reStr ".query("⟩,
   ⟨false, Re.cat (reStr "WHERE ") (Re.cat (.star .dot) (reStr " LIKE"))⟩,
   ⟨false, Re.cat (reStr "for")
      (Re.cat (.star .dot) (Re.cat (reStr "await") (Re.cat (.star .dot) (reStr "find"))))⟩,
   ⟨false, Re.cat (reStr "forEach") (Re.cat (.star .dot) (reStr "query"))⟩,
   ⟨false, reStr "N+1"⟩]

/-- Skill 8, `data-access` (content-only). -/
def dataAccess : Skill :=
  { id := "data-access"
    name := "Database Query Safety"
    paths := []
    detect := fun _ diffContent => matchesContent diffContent dataAccessContent
    systemContext := "Database query patterns detected in the diff."
    checks :=
      ["Check for N+1 query patterns (queries inside loops)",
       "Verify WHERE clause columns have appropriate indexes",
       "Confirm raw SQL uses parameterized queries, not string interpolation",
       "Check that related writes are wrapped in transactions where appropriate"] }

def authenticationPaths : List String :=
  ["**/auth/**", "**/middleware/**", "**/guards/**", "**/interceptors/**"]

/-- Content patterns of `authentication` (all escaped literals:
`authenticate`, `authorize`, `jwt\.verify`, `jwt\.sign`, `session\.`,
`passport\.`, `requireAuth`, `@Auth`, `RBAC`, `permission`, `role\.`). -/
def authenticationContent : List ContentPattern :=
  [⟨false, reStr "authenticate"⟩, ⟨false, reStr "authorize"⟩,
   ⟨false, reStr "jwt.verify"⟩, ⟨false, reStr "jwt.sign"⟩,
   ⟨false, reStr "session."⟩, ⟨false, reStr "passport."⟩,
   ⟨false, reStr "requireAuth"⟩, ⟨false, reStr "@Auth"⟩,
   ⟨false, reStr "RBAC"⟩, ⟨false, reStr "permission"⟩,
   ⟨false, reStr "role."⟩]

/-- Skill 9, `authentication`. -/
def authentication : Skill :=
  { id := "authentication"
    name := "Authentication or Authorization Change"
    paths := authenticationPaths
    detect := fun filesChanged diffContent =>
      matchesPaths filesChanged authenticationPaths ||
        matchesContent diffContent authenticationContent
    systemContext := "Authentication or authorization logic changed."
    checks :=
      ["Verify no authentication checks are removed or bypassed",
       "Check for logic errors in permission/role checks",
       "Confirm token/session changes are backward compatible with active user sessions",
       "Verify cookie security attributes are not weakened"] }

def infrastructurePaths : List String :=
  ["**/*.tf", "**/*.tfvars", "**/k8s/**", "**/kubernetes/**", "**/helm/**",
   "**/ansible/**", "**/terraform/**", "**/*.hcl"]

/-- Skill 10, `infrastructure`. -/
def infrastructure : Skill :=
  { id := "infrastructure"
    name := "Infrastructure as Code Change"
    paths := infrastructurePaths
    detect := fun filesChanged _ => matchesPaths filesChanged infrastructurePaths
    systemContext := "Infrastructure as code change detected."
    checks :=
      ["Verify terraform plan / dry-run output has been reviewed before applying",
       "Check for destructive operations (resource deletion, replacement) in the plan",
       "Confirm Kubernetes pod restart is triggered for ConfigMap/Secret changes",
       "Verify RBAC changes grant only the minimum necessary permissions"] }

def ciCdPaths : List String :=
  [".github/workflows/**", ".gitlab-ci.yml", "Jenkinsfile", ".circleci/**",
   ".buildkite/**", "azure-pipelines.yml", "**/.drone.yml"]

/-- Skill 11, `ci-cd`. -/
def ciCd : Skill :=
  { id := "ci-cd"
    name := "CI/CD Pipeline Change"
    paths := ciCdPaths
    detect := fun filesChanged _ => matchesPaths filesChanged ciCdPaths
    systemContext := "CI/CD pipeline configuration changed."
    checks :=
      ["Verify new secrets referenced in the pipeline are provisioned in the CI secret store",
       "Check that third-party actions are pinned to a commit SHA, not a mutable tag",
       "Confirm required status checks are not removed or weakened",
       "Verify the pipeline runs on the correct branches for the intended trigger"] }

def dependenciesPaths : List String :=
  ["package-lock.json", "yarn.lock", "pnpm-lock.yaml", "poetry.lock",
   "go.sum", "Gemfile.lock", "pom.xml", "build.gradle", "build.gradle.kts",
   "Cargo.lock", "composer.lock"]

/-- Skill 12, `dependencies`. -/
def dependencies : Skill :=
  { id := "dependencies"
    name := "Dependency Lockfile Change"
    paths := dependenciesPaths
    detect := fun filesChanged _ => matchesPaths filesChanged dependenciesPaths
    systemContext := "Dependency lockfile changed."
    checks :=
      ["Verify a security audit (npm audit, pip-audit) was run and issues addressed",
       "Review major version bumps for breaking changes in the changelog",
       "Check newly added packages for trustworthiness and necessity"] }

def dockerPaths : List String :=
  ["Dockerfile", "Dockerfile.*", "**/Dockerfile", "**/Dockerfile.*",
   "docker-compose.yml", "docker-compose.yaml", "docker-compose.*.yml",
   "docker-compose.*.yaml", ".dockerignore"]

/-- Skill 13, `docker`. -/
def docker : Skill :=
  { id := "docker"
    name := "Docker Configuration Change"
    paths := dockerPaths
    detect := fun filesChanged _ => matchesPaths filesChanged dockerPaths
    systemContext := "Docker configuration changed."
    checks :=
      ["Verify base image is pinned to a digest or specific version tag, not :latest",
       "Check that no secrets are baked into image layers (ARG, COPY of .env files)",
       "Confirm a HEALTHCHECK instruction exists and points to the correct endpoint",
       "Review port and volume changes for unintended exposure or data loss risk"] }

def apiRoutesPaths : List String :=
  ["**/routes/**", "**/api/**", "**/controllers/**", "**/views/**",
   "**/endpoints/**"]

/-- Skill 14, `api-routes`. -/
def apiRoutes : Skill :=
  { id := "api-routes"
    name := "API Route Change"
    paths := apiRoutesPaths
    detect := fun filesChanged _ => matchesPaths filesChanged apiRoutesPaths
    systemContext := "API route or controller change detected."
    checks :=
      ["Verify all new parameters are validated before use",
       "Check that new public endpoints have appropriate rate limiting and authentication",
       "Confirm error responses do not leak sensitive internal information",
       "Review endpoints returning lists for missing pagination"] }

/-- The built-in catalog `SKILLS` (order as in the source). -/
def SKILLS : List Skill :=
  [migrationEntity, migrationReview, envVars, secrets, apiContract, apiSchema,
   configuration, dataAccess, authentication, infrastructure, ciCd,
   dependencies, docker, apiRoutes]

/-- `detectActiveSkills`: run each skill's `detect` against the changed
files and diff content, keeping the ones that fire. -/
def detectActiveSkills (filesChanged : List String) (diffContent : String) :
    List Skill :=
  SKILLS.filter fun skill => skill.detect filesChanged diffContent

/-- `computeUncoveredFiles`: a file is covered if some active skill's
`paths` or `companionPaths` matches it; when no active skill contributes any
pattern the whole changed-file list is returned. -/
def computeUncoveredFiles (filesChanged : List String)
    (activeSkills : List Skill) : List String :=
  let allCoveredPatterns :=
    activeSkills.flatMap fun skill => skill.paths ++ skill.companionPaths.getD []
  if allCoveredPatterns.isEmpty then filesChanged
  else
    filesChanged.filter fun file =>
      !(allCoveredPatterns.any fun pattern => minimatch file pattern)

/-! ## Diff truncation (`src/utils/diff-truncation.ts`) -/

structure DiffFile where
  filename : String
  content : String
deriving Repr, DecidableEq

structure TruncationResult where
  diff : String
  truncated : Bool
  filesSummarized : List String
deriving Repr, DecidableEq

/-- The file-header marker the source splits on. -/
def diffHeaderMark : String := "diff --git "

/-- Re-attach the `"\n"` that `String.splitOn` consumed but that the
JavaScript `split(/^diff --git /m)` leaves at the end of the preceding
piece (the regex consumes only `"diff --git "`). -/
def reattachNewlines : List String → List String
  | [] => []
  | [p] => [p]
  | p :: rest => (p ++ "\n") :: reattachNewlines rest

/-- `diff.split(/^diff --git /m).filter(Boolean)`: split at every
occurrence of the marker at a line start (position 0 included), dropping
the marker itself and empty pieces. -/
def splitDiffString (s : String) : List String :=
  let pieces :=
    reattachNewlines ((splitSeq ("\n" ++ diffHeaderMark).data s.data).map String.mk)
  let pieces :=
    match pieces with
    | [] => []
    | p :: rest =>
        if strStartsWith p diffHeaderMark then
          (p.drop diffHeaderMark.length) :: rest
        else p :: rest
  pieces.filter (· ≠ "")

/-- Is `" b/"` the immediate continuation?  (Used for the lazy group of the
header regex `a\/(.+?) b\//`.) -/
def startsWithBSlash : List Char → Bool
  | ' ' :: 'b' :: '/' :: _ => true
  | _ => false

/-- The lazy `(.+?) b\/` step of the header regex: consume characters (at
least one, none of them a newline — `.` does not match line terminators)
until `" b/"` follows, preferring the shortest such run. -/
def grabName (acc : List Char) : List Char → Option String
  | [] => none
  | c :: rest =>
      if !acc.isEmpty && startsWithBSlash (c :: rest) then
        some (String.mk acc.reverse)
      else if c == '\n' then none
      else grabName (c :: acc) rest

/-- `section.match(/a\/(.+?) b\//)`: the first position where `a/` starts a
complete match, returning the lazily captured group.  (On a failed
completion the scan resumes one character further, i.e. at the `/`.) -/
def findAName : List Char → Option String
  | [] => none
  | c :: rest =>
      if c = 'a' then
        match rest with
        | '/' :: rest2 =>
            match grabName [] rest2 with
            | some nm => some nm
            | none => findAName rest
        | _ => findAName rest
      else findAName rest

/-- `parseDiffFiles`: split into per-file sections, extract the filename
from each section's header (or `"unknown"`), and re-attach the marker that
the split removed. -/
def parseDiffFiles (diff : String) : List DiffFile :=
  (splitDiffString diff).map fun sec =>
    { filename := (findAName sec.toList).getD "unknown"
      content := diffHeaderMark ++ sec }

/-- `fileMatchesRules`: the filename matches some pattern among a rule's
`trigger.paths` or `trigger.missing_companion`. -/
def fileMatchesRules (filename : String) (rules : List Rule) : Bool :=
  rules.any fun rule =>
    ((rule.trigger.paths.getD []) ++ (rule.trigger.missing_companion.getD [])).any
      fun pattern => minimatch filename pattern

/-- `truncateFileContent`: keep the first `maxLines` lines, appending a
marker when something was cut. -/
def truncateFileContent (content : String) (maxLines : Nat := 100) : String :=
  let lines := splitOnChar '\n' content
  if lines.length ≤ maxLines then content
  else String.intercalate "\n" (lines.take maxLines) ++ "\n... (truncated)"

/-- The content a triggered file offers the budget: whole section, or its
first 100 lines when it alone exceeds 50% of the budget.  The JavaScript
comparison `Math.floor(maxSize * 0.5)` is modelled exactly as `maxSize / 2`
(multiplying a float by 0.5 is exact). -/
def triggeredContent (maxSize : Nat) (file : DiffFile) : String :=
  if file.content.length > maxSize / 2 then
    truncateFileContent file.content 100
  else file.content

/-- The triggered-file loop of `truncateDiff`.  The JavaScript comparison
`x < maxSize * 0.9` is modelled as the exact rational comparison
`x * 10 < maxSize * 9`. -/
def triggeredPass (maxSize : Nat) :
    List DiffFile → List String → Nat → List String × Nat
  | [], parts, currentSize => (parts, currentSize)
  | file :: rest, parts, currentSize =>
      let content := triggeredContent maxSize file
      if (currentSize + content.length) * 10 < maxSize * 9 then
        triggeredPass maxSize rest (parts ++ [content])
          (currentSize + content.length)
      else
        -- over 90% budget: still include the triggered file, cut to 50 lines
        let t := truncateFileContent file.content 50
        triggeredPass maxSize rest (parts ++ [t]) (currentSize + t.length)

/-- The non-triggered loop of `truncateDiff`: whole sections while they fit,
otherwise record the filename as summarized. -/
def backgroundPass (maxSize : Nat) :
    List DiffFile → List String → Nat → List String →
      List String × Nat × List String
  | [], parts, currentSize, summarized => (parts, currentSize, summarized)
  | file :: rest, parts, currentSize, summarized =>
      if currentSize + file.content.length < maxSize then
        backgroundPass maxSize rest (parts ++ [file.content])
          (currentSize + file.content.length) summarized
      else
        backgroundPass maxSize rest parts currentSize
          (summarized ++ [file.filename])

/-- The trailing comment block listing omitted filenames. -/
def omittedSummary (summarized : List String) : String :=
  "\n# Files omitted from diff (not matching rule triggers):\n" ++
    String.intercalate "\n" (summarized.map fun f => "# - " ++ f) ++ "\n"

/-- The section-assembly stage of `truncateDiff` (everything after the
early-return check): the final `parts` list and the summarized filenames. -/
def truncateAssemble (diff : String) (maxSize : Nat) (rules : List Rule) :
    List String × List String :=
  let files := parseDiffFiles diff
  let triggered := files.filter fun f => fileMatchesRules f.filename rules
  let nonTriggered := files.filter fun f => !fileMatchesRules f.filename rules
  let p1 := triggeredPass maxSize triggered [] 0
  let p2 := backgroundPass maxSize nonTriggered p1.1 p1.2 []
  let summarized := p2.2.2
  (if summarized.isEmpty then p2.1 else p2.1 ++ [omittedSummary summarized],
   summarized)

/-- `truncateDiff`. -/
def truncateDiff (diff : String) (maxSize : Nat) (rules : List Rule) :
    TruncationResult :=
  if diff.length ≤ maxSize then
    { diff := diff, truncated := false, filesSummarized := [] }
  else
    let assembled := truncateAssemble diff maxSize rules
    { diff := String.intercalate "\n" assembled.1
      truncated := true
      filesSummarized := assembled.2 }

/-! ## Analysis requester (`src/services/diff-analyzer.ts`)

The two external collaborators — the GitHub Contents API
(`octokit.rest.repos.getContent`) and the model endpoint
(`anthropic.messages.create`) — are modelled as an environment of outcomes.
Exceptions are modelled with `Except`: `.error` is a throw that escapes the
function, and the `try { ... } catch { return null }` block turns every
failure inside it into `.ok none`. -/

/-- Outcome of one `getContent` call for a path (owner/repo/ref are fixed by
the environment).  `file` carries the base64-decoded text; `nonFile` is a
reply without a string `content` field (e.g. a directory listing);
`httpError` is a thrown request error carrying its HTTP `status`. -/
inductive GetContentOutcome where
  | file (content : String)
  | nonFile
  | httpError (status : Nat)
deriving Repr, DecidableEq

/-- A content block of the model's reply: the source only distinguishes
`tool_use` blocks (whose `input` arrives as an already-parsed JSON value)
from everything else. -/
inductive Json where
  | str (s : String)
  | num (n : Int)
  | bool (b : Bool)
  | null
  | arr (items : List Json)
  | obj (fields : List (String × Json))

inductive ResponseBlock where
  | text (s : String)
  | toolUse (input : Json)

/-- Outcome of the `anthropic.messages.create` call: a reply with content
blocks, or a thrown SDK error (transport failure, timeout, auth failure). -/
inductive ModelOutcome where
  | reply (blocks : List ResponseBlock)
  | sdkError (msg : String)

structure AnalyzeEnv where
  getContent : String → GetContentOutcome
  modelOutcome : ModelOutcome

def Json.getField (name : String) : Json → Option Json
  | .obj fields => (fields.find? fun kv => kv.1 == name).map (·.2)
  | _ => none

def Json.asString : Json → Option String
  | .str s => some s
  | _ => none

def Json.asArr : Json → Option (List Json)
  | .arr items => some items
  | _ => none

def parsePriority (s : String) : Option Priority :=
  if s == "high" then some .high
  else if s == "medium" then some .medium
  else if s == "low" then some .low
  else none

/-- One element of `AnalysisResultSchema`'s `items` array: every field
required and typed. -/
def parseChecklistItemJson (j : Json) : Option ChecklistItem := do
  let rule_id ← (← j.getField "rule_id").asString
  let check ← (← j.getField "check").asString
  let description ← (← j.getField "description").asString
  let reasoning ← (← j.getField "reasoning").asString
  let priority ← parsePriority (← (← j.getField "priority").asString)
  pure ⟨rule_id, check, description, reasoning, priority⟩

def parseStringArrayJson (j : Json) : Option (List String) := do
  (← j.asArr).mapM Json.asString

def parseConcernJson (j : Json) : Option (String × String) := do
  let file ← (← j.getField "file").asString
  let concern ← (← j.getField "concern").asString
  pure (file, concern)

/-- `AnalysisResultSchema.parse` as a total function: `none` is the Zod
throw.  `items` and `summary` are required; `uncovered_files` and
`open_concerns` may be absent but must validate when present; extra keys are
ignored, as Zod strips them. -/
def analysisResultParse (j : Json) : Option AnalysisResult := do
  let items ← (← (← j.getField "items").asArr).mapM parseChecklistItemJson
  let summary ← (← j.getField "summary").asString
  let uncovered_files ←
    match j.getField "uncovered_files" with
    | none => pure none
    | some v => (parseStringArrayJson v).map some
  let open_concerns ←
    match j.getField "open_concerns" with
    | none => pure none
    | some v => ((← v.asArr).mapM parseConcernJson).map some
  pure ⟨items, summary, uncovered_files, open_concerns⟩

/-- Worker for `dedupFirst`: keep elements not seen before. -/
def dedupFirstAux (seen : List String) : List String → List String
  | [] => []
  | x :: xs =>
      if seen.contains x then dedupFirstAux seen xs
      else x :: dedupFirstAux (seen ++ [x]) xs

/-- `extractFilesFromDiff`'s `[...new Set(files)]`: deduplicate, keeping the
first occurrence of each element. -/
def dedupFirst (l : List String) : List String :=
  dedupFirstAux [] l

/-- `extractFilesFromDiff`: every `^diff --git a\/(.+?) b\//` match (the
anchored multiline regex matches per line), deduplicated. -/
def extractFilesFromDiff (diff : String) : List String :=
  dedupFirst <|
    (splitOnChar '\n' diff).filterMap fun line =>
      if strStartsWith line "diff --git a/" then
        grabName [] ((line.drop "diff --git a/".length).toList)
      else none

/-- `Map.set` on the insertion-ordered association list modelling the JS
`Map`. -/
def setAssoc (m : List (String × String)) (k v : String) :
    List (String × String) :=
  if m.any (·.1 == k) then
    m.map fun kv => if kv.1 == k then (k, v) else kv
  else m ++ [(k, v)]

/-- The 500-line cap applied to a fetched file
(`MAX_LINES_PER_FILE = 500`). -/
def truncateFetched (fullContent : String) : String :=
  let lines := splitOnChar '\n' fullContent
  if lines.length > 500 then
    String.intercalate "\n" (lines.take 500) ++
      "\n... (truncated, " ++ toString (lines.length - 500) ++ " more lines)"
  else fullContent

/-- The fetch loop of `fetchTriggeredFileContents`: 404 is skipped silently
(`continue`), any other thrown error propagates (`throw error`), a non-file
reply stores nothing. -/
def fetchLoop (env : AnalyzeEnv) :
    List String → List (String × String) →
      Except Nat (List (String × String))
  | [], acc => .ok acc
  | filePath :: rest, acc =>
      match env.getContent filePath with
      | .file content => fetchLoop env rest (setAssoc acc filePath (truncateFetched content))
      | .nonFile => fetchLoop env rest acc
      | .httpError status =>
          if status == 404 then fetchLoop env rest acc
          else .error status

/-- The patterns gathered from rules with `include_full_files` and a
non-empty `paths`. -/
def fullFilePatterns (rules : List Rule) : List String :=
  rules.flatMap fun rule =>
    if rule.trigger.include_full_files.getD false &&
        !(rule.trigger.paths.getD []).isEmpty then
      rule.trigger.paths.getD []
    else []

/-- `fetchTriggeredFileContents` (`MAX_FULL_FILES = 5`): changed files
matching the full-file patterns are fetched, capped at 5. -/
def fetchTriggeredFileContents (env : AnalyzeEnv) (rules : List Rule)
    (filesChanged : List String) : Except Nat (List (String × String)) :=
  if (fullFilePatterns rules).isEmpty then .ok []
  else
    fetchLoop env
      ((filesChanged.filter fun file =>
          (fullFilePatterns rules).any fun pattern => minimatch file pattern).take 5)
      []

/-- `skillsToRules`: convert `Skill[]` to `Rule[]` so `truncateDiff` and
`fetchTriggeredFileContents` need no signature change. -/
def skillsToRules (skills : List Skill) : List Rule :=
  skills.map fun skill =>
    { id := skill.id
      description := skill.name
      trigger :=
        { paths := some skill.paths
          missing_companion := skill.companionPaths
          include_full_files := skill.includeFullFiles }
      checks := skill.checks }

/-! ### Prompt assembly (`src/prompts/analysis.ts`) -/

def SYSTEM_PROMPT : String :=
  "You are a deploy checklist analyzer. You examine pull request diffs and determine which checklist items apply based on active skills and custom rules.\n\nUse the submit_analysis tool to return your findings. Only include items genuinely relevant to the actual changes in the diff."

/-- `formatRule`. -/
def formatRule (rule : Rule) : String :=
  let parts := ["### Rule: " ++ rule.id, "Description: " ++ rule.description]
  let parts := parts ++
    (if !(rule.trigger.paths.getD []).isEmpty then
      ["Trigger paths: " ++ String.intercalate ", " (rule.trigger.paths.getD [])]
    else [])
  let parts := parts ++
    (if !(rule.trigger.content.getD []).isEmpty then
      ["Trigger content patterns: " ++
        String.intercalate ", " (rule.trigger.content.getD [])]
    else [])
  let parts := parts ++
    (if !(rule.trigger.missing_companion.getD []).isEmpty then
      ["Expected companion files: " ++
        String.intercalate ", " (rule.trigger.missing_companion.getD [])]
    else [])
  let parts := parts ++ ["Checks:"] ++ rule.checks.map (fun check => "  - " ++ check)
  String.intercalate "\n" parts

/-- `formatSkill`. -/
def formatSkill (skill : Skill) : String :=
  let parts := ["### Skill: " ++ skill.id, skill.systemContext, "Checks:"] ++
    skill.checks.map (fun check => "  - " ++ check)
  let parts := parts ++
    (if !(skill.companionPaths.getD []).isEmpty then
      ["Expected companion files: " ++
        String.intercalate ", " (skill.companionPaths.getD [])]
    else [])
  String.intercalate "\n" parts

/-- `buildUserPrompt` (file contents carried as the insertion-ordered list
of the JS `Map`). -/
def buildUserPrompt (config : DeployChecklistConfig) (prMeta : PRMetadata)
    (diff : String) (activeSkills : List Skill) (uncoveredFiles : List String)
    (fileContents : List (String × String)) : String :=
  let sections : List String := []
  let sections := sections ++
    (if !activeSkills.isEmpty then
      ["## Active Skills\n" ++
        String.intercalate "\n\n" (activeSkills.map formatSkill)]
    else [])
  let sections := sections ++
    (if !config.rules.isEmpty then
      ["## Custom Rules\n" ++
        String.intercalate "\n\n" (config.rules.map formatRule)]
    else [])
  -- `if (config.context)`: absent and empty strings are both falsy
  let sections := sections ++
    (if config.context.getD "" ≠ "" then
      ["## Repository Context\n" ++ config.context.getD ""]
    else [])
  let sections := sections ++
    ["## PR Information\nTitle: " ++ prMeta.title ++
      "\nDescription: " ++ (if prMeta.body = "" then "(no description)" else prMeta.body) ++
      "\nBase branch: " ++ prMeta.baseBranch ++
      "\nFiles changed: " ++ String.intercalate ", " prMeta.filesChanged]
  let sections := sections ++
    (if !fileContents.isEmpty then
      [String.intercalate "\n"
        (["## Full File Contents (for context)",
          "The following files triggered a skill. Full content provided so you can identify",
          "the framework/ORM and assess whether changes affect the database schema."] ++
         fileContents.map fun kv =>
           "\n### " ++ kv.1 ++ "\n```\n" ++ kv.2 ++ "\n```")]
    else [])
  let sections := sections ++
    (if !uncoveredFiles.isEmpty then
      [String.intercalate "\n"
        (["## Files Without Skill Coverage",
          "The following changed files were not matched by any skill or custom rule.",
          "For each, add an entry to open_concerns if you spot a deploy risk:",
          ""] ++ uncoveredFiles.map (fun f => "- " ++ f))]
    else [])
  let sections := sections ++ ["## Diff\n```diff\n" ++ diff ++ "\n```"]
  let sections := sections ++
    ["## Instructions\nUse the submit_analysis tool to return your findings.\nFor each active skill, evaluate its checks against the diff.\nOnly include items genuinely relevant to the actual changes.\nBe specific — reference actual file names, function names, and line numbers from the diff.\nFor uncovered files, add to open_concerns only if you spot a real deploy risk."]
  String.intercalate "\n\n" sections

/-- `analyzeDiff` (the tool-use version).  Note that the call to
`fetchTriggeredFileContents` happens *before* the `try` block, so an error
it throws (any non-404 `getContent` failure) escapes `analyzeDiff` as
`.error`; everything inside the `try` collapses to `.ok none` via the
`catch`. -/
def analyzeDiff (env : AnalyzeEnv) (diff : String)
    (config : DeployChecklistConfig) (prMeta : PRMetadata) :
    Except Nat (Option AnalysisResult) :=
  let filesChanged := extractFilesFromDiff diff
  let activeSkills := detectActiveSkills filesChanged diff
  let uncoveredFiles := computeUncoveredFiles filesChanged activeSkills
  let skillRules := skillsToRules activeSkills
  let allRulesForTruncation := skillRules ++ config.rules
  let truncatedDiff :=
    (truncateDiff diff config.settings.max_diff_size allRulesForTruncation).diff
  match fetchTriggeredFileContents env allRulesForTruncation filesChanged with
  | .error status => .error status
  | .ok fileContents =>
      let _userPrompt :=
        buildUserPrompt config prMeta truncatedDiff activeSkills uncoveredFiles
          fileContents
      match env.modelOutcome with
      | .sdkError _ => .ok none
      | .reply blocks =>
          match blocks.find? (fun b => match b with | .toolUse _ => true | _ => false) with
          | some (.toolUse input) =>
              match analysisResultParse input with
              | some result => .ok (some result)
              | none => .ok none
          | _ => .ok none

/-! ## Checklist engine (`src/services/checklist.ts`)

Modelled from the spec: the implementation file `src/services/checklist.ts`
is not part of the provided sources — only its unit tests, its callers and
the repository documentation are.  The definitions below follow §4.4 of the
spec (render / parse / merge over the rendered markdown, identity key =
(rule id, description)), with the concrete line formats fixed by the unit
tests (`- [ ] **{check}**`, `{description} — {reasoning}` on the next line,
`_Rule: {rule_id}_`, `<!-- sha:{sha} -->`, and the `BOT_MARKER`).

Text is represented as a `String` whose lines are joined and split on
`'\n'` by the `joinChar` / `splitChar` defined at the top of the file. -/

/-- Join lines into the rendered document text. -/
def joinLines (lines : List String) : String :=
  String.mk (joinChar '\n' (lines.map String.data))

/-- Modelled from the spec: the fixed marker token identifying the bot's
comment (value from the repository documentation and tests). -/
def BOT_MARKER : String := "<!-- deploy-checklist-bot:v1 -->"

def priorityIs (p : Priority) (it : ChecklistItem) : Bool := it.priority == p

/-- Modelled from the spec: sort items by priority, high then medium then
low, stable within each tier. -/
def sortItems (items : List ChecklistItem) : List ChecklistItem :=
  items.filter (priorityIs .high) ++ items.filter (priorityIs .medium) ++
    items.filter (priorityIs .low)

/-- Modelled from the spec: one checkable item renders as a checkbox line
showing the check text as title, a body line `description — reasoning`, and
a rule line. -/
def itemLines (it : ChecklistItem) (checked : Bool) : List String :=
  [(if checked then "- [x] **" else "- [ ] **") ++ it.check ++ "**",
   "  " ++ it.description ++ " — " ++ it.reasoning,
   "  _Rule: " ++ it.rule_id ++ "_"]

/-- Modelled from the spec: the informational (non-checkable) section
listing uncovered files and open concerns, present only when one of them is
non-empty; its lines must not match the checkable-item pattern. -/
def infoLines (result : AnalysisResult) : List String :=
  let unc := result.uncovered_files.getD []
  let conc := result.open_concerns.getD []
  if unc.isEmpty && conc.isEmpty then []
  else
    ["", "### Needs Manual Review"] ++ unc.map (fun f => "- " ++ f) ++
      conc.map (fun fc => "- " ++ fc.1 ++ ": " ++ fc.2)

/-- Modelled from the spec: document header — marker, embedded version id,
title, risk summary. -/
def headerLines (result : AnalysisResult) (sha : String) : List String :=
  [BOT_MARKER, "<!-- sha:" ++ sha ++ " -->", "## Deploy Checklist", "",
   "> " ++ result.summary, ""]

/-- Modelled from the spec: static footer. -/
def footerLines : List String :=
  ["", "---", "_Re-analyze: push a new commit._"]

/-- Modelled from the spec: full line list of the rendered document, with
each item's checked flag given by `flagOf`. -/
def checklistLines (result : AnalysisResult) (sha : String)
    (flagOf : ChecklistItem → Bool) : List String :=
  headerLines result sha ++
    (sortItems result.items).flatMap (fun it => itemLines it (flagOf it)) ++
    infoLines result ++ footerLines

/-- Modelled from the spec: `generateChecklist(result, sha)` renders every
item unchecked. -/
def generateChecklist (result : AnalysisResult) (sha : String) : String :=
  joinLines (checklistLines result sha (fun _ => false))

/-- A parsed checkable line's state: identity key plus checked flag. -/
structure ParsedItem where
  rule_id : String
  description : String
  checked : Bool
deriving Repr, DecidableEq

/-- `ChecklistState` as returned by `parseChecklist`. -/
structure ChecklistState where
  sha : String
  items : List ParsedItem
  allComplete : Bool
deriving Repr, DecidableEq

/-- Drop an exact leading character run, or fail. -/
def dropPre : List Char → List Char → Option (List Char)
  | [], cs => some cs
  | _ :: _, [] => none
  | p :: ps, c :: cs => if p = c then dropPre ps cs else none

/-- Drop an exact trailing character run, or fail. -/
def dropSuf (suf cs : List Char) : Option (List Char) :=
  (dropPre suf.reverse cs.reverse).map List.reverse

/-- Modelled from the spec: recognize a checkable line and its checked
flag. -/
def parseCheckboxLine (line : List Char) : Option Bool :=
  if (dropPre "- [ ] **".data line).isSome then some false
  else if (dropPre "- [x] **".data line).isSome then some true
  else none

/-- The ` — ` separator between description and reasoning on a body line. -/
def emDashSep : List Char := [' ', '—', ' ']

/-- Split at the first occurrence of a separator run, or fail. -/
def splitFirst (sep : List Char) : List Char → Option (List Char × List Char)
  | [] => none
  | c :: cs =>
      if sep.isPrefixOf (c :: cs) then some ([], (c :: cs).drop sep.length)
      else
        match splitFirst sep cs with
        | some ab => some (c :: ab.1, ab.2)
        | none => none

/-- Modelled from the spec: extract the description from an item's body
line (the text before the ` — ` separator). -/
def parseBodyLine (line : List Char) : Option String :=
  match dropPre "  ".data line with
  | none => none
  | some rest => (splitFirst emDashSep rest).map fun ab => String.mk ab.1

/-- Modelled from the spec: extract the rule id from an item's rule line. -/
def parseRuleLine (line : List Char) : Option String :=
  match dropPre "  _Rule: ".data line with
  | none => none
  | some rest =>
      match dropSuf ['_'] rest with
      | some rid => some (String.mk rid)
      | none => none

/-- Modelled from the spec: scan the lines for checkable items; a checkbox
line followed by a well-formed body line and rule line yields an item, any
malformed block is skipped (parse what can be parsed, never fail). -/
def parseItemsLines : List (List Char) → List ParsedItem
  | [] => []
  | l :: l2 :: l3 :: rest2 =>
      (match parseCheckboxLine l with
      | none => parseItemsLines (l2 :: l3 :: rest2)
      | some chk =>
          match parseBodyLine l2, parseRuleLine l3 with
          | some desc, some rid => ⟨rid, desc, chk⟩ :: parseItemsLines rest2
          | _, _ => parseItemsLines (l2 :: l3 :: rest2))
  | _ :: rest => parseItemsLines rest

/-- Modelled from the spec: extract the embedded version id from a
`<!-- sha:... -->` line. -/
def parseShaLine (line : List Char) : Option String :=
  match dropPre "<!-- sha:".data line with
  | none => none
  | some rest =>
      match dropSuf " -->".data rest with
      | some sha => some (String.mk sha)
      | none => none

/-- `haystack.includes(needle)` on character lists. -/
def containsSeq (needle : List Char) : List Char → Bool
  | [] => needle.isEmpty
  | c :: tl => needle.isPrefixOf (c :: tl) || containsSeq needle tl

/-- Modelled from the spec: `parseChecklist` — absent without the marker,
otherwise the extracted version id (first sha line, empty if none), the
parsed items, and the completion flag. -/
def parseChecklist (text : String) : Option ChecklistState :=
  if containsSeq BOT_MARKER.data text.data then
    let lines := splitChar '\n' text.data
    let sha := ((lines.filterMap parseShaLine).head?).getD ""
    let items := parseItemsLines lines
    some ⟨sha, items, items.all (·.checked)⟩
  else none

/-- Modelled from the spec: look up an item's identity key (rule id,
description) in the old state; found items keep their old checked flag,
everything else starts unchecked. -/
def lookupChecked (oldState : ChecklistState) (it : ChecklistItem) : Bool :=
  match oldState.items.find? fun p =>
      p.rule_id == it.rule_id && p.description == it.description with
  | some p => p.checked
  | none => false

/-- The (item, checked) pairs the merged document renders, in render
order. -/
def mergeStates (oldState : ChecklistState) (newResult : AnalysisResult) :
    List (ChecklistItem × Bool) :=
  (sortItems newResult.items).map fun it => (it, lookupChecked oldState it)

/-- Modelled from the spec: `mergeChecklist` re-renders the new result with
the new version id, inheriting checked flags by identity key; items absent
from the new result are dropped. -/
def mergeChecklist (oldState : ChecklistState) (newResult : AnalysisResult)
    (sha : String) : String :=
  joinLines (checklistLines newResult sha (lookupChecked oldState))

/-- A string with no newline characters. -/
def singleLine (s : String) : Bool := !s.data.contains '\n'

/-- A checklist item whose rendered lines survive the textual round trip:
fields are single lines and the description contains no em-dash (the
character of the ` — ` separator). -/
def wfItem (it : ChecklistItem) : Bool :=
  singleLine it.rule_id && singleLine it.check && singleLine it.description &&
    singleLine it.reasoning && !it.description.data.contains '—'

/-- An informational entry that cannot be mistaken for a checkable line:
single-line and not starting with `[`. -/
def wfInfoEntry (s : String) : Bool :=
  singleLine s && s.data.head? != some '['

/-- An analysis result whose rendering round-trips. -/
def wfResult (r : AnalysisResult) : Bool :=
  r.items.all wfItem && singleLine r.summary &&
    (r.uncovered_files.getD []).all wfInfoEntry &&
    (r.open_concerns.getD []).all fun fc =>
      wfInfoEntry fc.1 && singleLine fc.2

/-! ## Debouncing (`src/utils/debounce.ts`)

The timer machinery (`setTimeout` / `clearTimeout` and the module-level
`pending` map) is modelled as an explicit state: `pending` is the key →
timer-id map, `timers` records every timer ever created together with its
cancelled flag, and `nextId` numbers timers in creation order.  `α` is the
type of callbacks (opaque data — the model never invokes them). -/

structure Timer (α : Type) where
  id : Nat
  key : String
  delayMs : Nat
  callback : α
  cancelled : Bool

structure DebounceState (α : Type) where
  pending : List (String × Nat)
  timers : List (Timer α)
  nextId : Nat

/-- `Map.get` on the key → timer-id association list. -/
def lookupKey (p : List (String × Nat)) (key : String) : Option Nat :=
  (p.find? fun kv => kv.1 == key).map (·.2)

/-- `pending.get(key)`. -/
def lookupPending (s : DebounceState α) (key : String) : Option Nat :=
  lookupKey s.pending key

/-- `clearTimeout(t)`: the timer will never fire. -/
def clearTimer (timers : List (Timer α)) (tid : Nat) : List (Timer α) :=
  timers.map fun t => if t.id == tid then { t with cancelled := true } else t

/-- `pending.set(key, timeout)`. -/
def setPending (pending : List (String × Nat)) (key : String) (tid : Nat) :
    List (String × Nat) :=
  if pending.any (·.1 == key) then
    pending.map fun kv => if kv.1 == key then (key, tid) else kv
  else pending ++ [(key, tid)]

/-- `debouncePR(key, delayMs, callback)`: cancel any pending timer for the
key, create a fresh timer, and record it as the pending one. -/
def debouncePR (key : String) (delayMs : Nat) (callback : α)
    (s : DebounceState α) : DebounceState α :=
  let timers :=
    match lookupPending s key with
    | some tid => clearTimer s.timers tid
    | none => s.timers
  { pending := setPending s.pending key s.nextId
    timers := timers ++ [⟨s.nextId, key, delayMs, callback, false⟩]
    nextId := s.nextId + 1 }

/-- Timer expiry: a timer that exists and was not cancelled deletes its
pending entry and runs its callback; a cancelled (or unknown) timer does
nothing.  Returns the callback that ran, if any. -/
def fireTimer (s : DebounceState α) (tid : Nat) :
    Option α × DebounceState α :=
  match s.timers.find? fun t => t.id == tid with
  | some t =>
      if t.cancelled then (none, s)
      else
        (some t.callback,
         { s with
            pending := s.pending.filter fun kv => kv.1 != t.key
            timers := s.timers.filter fun t2 => t2.id != tid })
  | none => (none, s)

/-- The timers for a key that can still fire. -/
def liveTimersFor (s : DebounceState α) (key : String) : List (Timer α) :=
  s.timers.filter fun t => t.key == key && !t.cancelled

/-- The reachable-state invariant of the debounce module: timer ids are
below `nextId` and duplicate-free, and every live timer is the recorded
pending timer of its key. -/
def DebounceWF (s : DebounceState α) : Prop :=
  (∀ t ∈ s.timers, t.id < s.nextId) ∧
  (s.timers.map (·.id)).Nodup ∧
  (∀ t ∈ s.timers, t.cancelled = false → lookupPending s t.key = some t.id)

/-! ## Concrete inputs used by counterexamples and witnesses -/

/-- A rule whose trigger path is the literal `x`. -/
def c4Rule : Rule :=
  { id := "r", description := "d", trigger := { paths := some ["x"] }
    checks := [] }

/-- A 50-character diff: one section for file `x` whose body is a single
long line. -/
def c4Diff : String :=
  "diff --git a/x b/x\n+" ++ String.mk (List.replicate 30 'q')

/-- An environment where every file fetch fails with HTTP 403 (an
authentication failure) and the model call would time out. -/
def c2Env : AnalyzeEnv :=
  { getContent := fun _ => .httpError 403
    modelOutcome := .sdkError "request timed out" }

/-- A config with one user rule requesting full file bodies for the path
`m`. -/
def c2Config : DeployChecklistConfig :=
  { rules := [{ id := "full-files", description := "wants file bodies"
                trigger := { paths := some ["m"], include_full_files := some true }
                checks := ["look at the file"] }] }

/-- PR metadata for the `analyzeDiff` runs. -/
def c2PrMeta : PRMetadata :=
  { title := "t", body := "", baseBranch := "main", headSha := "s"
    author := "a", isDraft := false, filesChanged := [] }

/-- A diff whose only header names the changed file `m`. -/
def c2Diff : String := "diff --git a/m b/m"

/-- An analysis result whose single item has a two-line description. -/
def c6Result : AnalysisResult :=
  { items := [⟨"r", "c", "a\nb", "x", .high⟩], summary := "s" }

/-- A well-formed analysis result (single-line fields, no em-dash in the
descriptions, info entries not starting with `[`) for the round-trip
witness. -/
def c6WfResult : AnalysisResult :=
  { items := [⟨"r1", "Check A", "desc A", "because", .high⟩,
              ⟨"r2", "Check B", "desc B", "since", .low⟩],
    summary := "ok",
    uncovered_files := some ["src/a.ts"],
    open_concerns := some [("src/b.ts", "concern")] }

/-! # Theorems -/

/-! ## Shared helper lemmas -/

theorem mem_flatMap_of_mem {α β : Type} {f : α → List β} {l : List α} {a : α}
    {b : β} (ha : a ∈ l) (hb : b ∈ f a) : b ∈ l.flatMap f :=
  List.mem_flatMap.mpr ⟨a, ha, hb⟩

theorem contains_false_iff {α : Type} [BEq α] [LawfulBEq α] {l : List α}
    {a : α} : (l.contains a = false) ↔ a ∉ l := by
  rw [← Bool.not_eq_true]
  exact not_congr List.elem_iff

/-! ## C7 — small diffs pass through; the `truncated` flag -/

/-- C7: a diff that fits within `maxChars` is returned unchanged with
`truncated = false` and an empty omitted list, and the `truncated` flag is
true exactly when the input exceeded `maxChars`, whether or not anything was
dropped. -/
theorem truncateDiff_fit_and_flag (diff : String) (maxSize : Nat)
    (rules : List Rule) :
    (truncateDiff diff maxSize rules).truncated = decide (maxSize < diff.length) ∧
    (diff.length ≤ maxSize →
      truncateDiff diff maxSize rules =
        { diff := diff, truncated := false, filesSummarized := [] }) := by
  constructor
  · unfold truncateDiff
    by_cases h : diff.length ≤ maxSize
    · simp [h, Nat.not_lt.mpr h]
    · simp [h, Nat.lt_of_not_le h]
  · intro h
    simp [truncateDiff, h]

/-- C7 witness: concrete instance. -/
theorem truncateDiff_fit_and_flag_witness :
    truncateDiff "short diff" 100 [] =
      { diff := "short diff", truncated := false, filesSummarized := [] } :=
  (truncateDiff_fit_and_flag "short diff" 100 []).2 (by decide)

/-! ## C8 — merging user rules with the built-in defaults -/

/-- C8: the merged rule list contains every user rule, contains every
default rule whose id collides with no user rule, and contains nothing
else: every merged rule is a user rule or a non-overridden default. -/
theorem mergeWithDefaults_spec (config : DeployChecklistConfig) :
    (∀ u ∈ config.rules, u ∈ (mergeWithDefaults config).rules) ∧
    (∀ d ∈ DEFAULT_RULES, (∀ u ∈ config.rules, u.id ≠ d.id) →
      d ∈ (mergeWithDefaults config).rules) ∧
    (∀ r ∈ (mergeWithDefaults config).rules,
      r ∈ config.rules ∨
        (r ∈ DEFAULT_RULES ∧ ∀ u ∈ config.rules, u.id ≠ r.id)) := by
  refine ⟨?_, ?_, ?_⟩
  · intro u hu
    simp only [mergeWithDefaults, List.mem_append]
    exact Or.inr hu
  · intro d hd h
    simp only [mergeWithDefaults, List.mem_append]
    refine Or.inl (List.mem_filter.mpr ⟨hd, ?_⟩)
    rw [Bool.not_eq_eq_eq_not, Bool.not_true, contains_false_iff]
    intro hmem
    obtain ⟨u, hu, hid⟩ := List.mem_map.mp hmem
    exact h u hu hid
  · intro r hr
    simp only [mergeWithDefaults, List.mem_append] at hr
    rcases hr with hr | hr
    · right
      have hmem := (List.mem_filter.mp hr).1
      have hcond := (List.mem_filter.mp hr).2
      rw [Bool.not_eq_eq_eq_not, Bool.not_true, contains_false_iff] at hcond
      refine ⟨hmem, ?_⟩
      intro u hu hid
      exact hcond (List.mem_map.mpr ⟨u, hu, hid⟩)
    · exact Or.inl hr

/-- C8 witness: a user rule overriding `default-env` keeps the other four
defaults and drops the built-in `default-env`. -/
theorem mergeWithDefaults_spec_witness :
    (let override : Rule :=
      { id := "default-env", description := "custom env rule"
        trigger := { content := some ["MY_ENV_"] }, checks := ["check it"] }
    let cfg : DeployChecklistConfig := { rules := [override] }
    override ∈ (mergeWithDefaults cfg).rules ∧
      ∀ r ∈ (mergeWithDefaults cfg).rules,
        r ∈ cfg.rules ∨ (r ∈ DEFAULT_RULES ∧ ∀ u ∈ cfg.rules, u.id ≠ r.id)) := by
  refine ⟨?_, ?_⟩
  · exact (mergeWithDefaults_spec _).1 _ (by simp)
  · exact (mergeWithDefaults_spec _).2.2

/-! ## C5 — uncovered files are disjoint from active rules' path coverage -/

/-- C5: every file reported uncovered matches none of the primary path
patterns and none of the companion path patterns of any active skill. -/
theorem computeUncoveredFiles_disjoint (filesChanged : List String)
    (activeSkills : List Skill) (f : String)
    (hf : f ∈ computeUncoveredFiles filesChanged activeSkills)
    (s : Skill) (hs : s ∈ activeSkills) (pat : String)
    (hp : pat ∈ s.paths ++ s.companionPaths.getD []) :
    minimatch f pat = false := by
  unfold computeUncoveredFiles at hf
  have hpat : pat ∈ activeSkills.flatMap
      fun sk => sk.paths ++ sk.companionPaths.getD [] :=
    mem_flatMap_of_mem hs hp
  by_cases hempty :
      (activeSkills.flatMap fun sk => sk.paths ++ sk.companionPaths.getD []).isEmpty
  · rw [List.isEmpty_iff] at hempty
    rw [hempty] at hpat
    exact absurd hpat (List.not_mem_nil pat)
  · simp only [hempty, if_false] at hf
    have := (List.mem_filter.mp hf).2
    simp only [Bool.not_eq_eq_eq_not, Bool.not_true, List.any_eq_false] at this
    exact Bool.eq_false_iff.mpr (this pat hpat)

/-- C5 witness: with the `migration-review` skill active, `README.md` is
uncovered and indeed matches none of its patterns. -/
theorem computeUncoveredFiles_disjoint_witness :
    "README.md" ∈ computeUncoveredFiles ["README.md"] [migrationReview] ∧
      minimatch "README.md" "**/migrations/**" = false := by
  refine ⟨by decide, ?_⟩
  exact computeUncoveredFiles_disjoint ["README.md"] [migrationReview]
    "README.md" (by decide) migrationReview (List.mem_singleton.mpr rfl)
    "**/migrations/**" (by decide)

/-! ## C4 — the budgeter never drops a prioritized section -/

/-- Elementwise relation between an output part and the triggered file it
renders: the whole section, or its 100-line or 50-line truncation. -/
def PartOfFile (part : String) (f : DiffFile) : Prop :=
  part = f.content ∨ part = truncateFileContent f.content 100 ∨
    part = truncateFileContent f.content 50

theorem triggeredPass_spec (m : Nat) (files : List DiffFile) :
    ∀ (parts : List String) (size : Nat),
    ∃ chosen, (triggeredPass m files parts size).1 = parts ++ chosen ∧
      List.Forall₂ PartOfFile chosen files := by
  induction files with
  | nil =>
      intro parts size
      exact ⟨[], by simp [triggeredPass], List.Forall₂.nil⟩
  | cons file rest ih =>
      intro parts size
      rw [triggeredPass]
      split
      · obtain ⟨chosen', h1, h2⟩ :=
          ih (parts ++ [triggeredContent m file])
            (size + (triggeredContent m file).length)
        refine ⟨triggeredContent m file :: chosen', ?_, ?_⟩
        · rw [h1, List.append_assoc]; rfl
        · refine List.Forall₂.cons ?_ h2
          unfold PartOfFile triggeredContent
          split
          · exact Or.inr (Or.inl rfl)
          · exact Or.inl rfl
      · obtain ⟨chosen', h1, h2⟩ :=
          ih (parts ++ [truncateFileContent file.content 50])
            (size + (truncateFileContent file.content 50).length)
        refine ⟨truncateFileContent file.content 50 :: chosen', ?_, ?_⟩
        · rw [h1, List.append_assoc]; rfl
        · exact List.Forall₂.cons (Or.inr (Or.inr rfl)) h2

theorem backgroundPass_spec (m : Nat) (files : List DiffFile) :
    ∀ (parts : List String) (size : Nat) (summ : List String),
    (∃ extra, (backgroundPass m files parts size summ).1 = parts ++ extra) ∧
    (∀ n ∈ (backgroundPass m files parts size summ).2.2,
       n ∈ summ ∨ ∃ f ∈ files, n = f.filename) := by
  induction files with
  | nil =>
      intro parts size summ
      exact ⟨⟨[], by simp [backgroundPass]⟩, fun n hn => Or.inl hn⟩
  | cons file rest ih =>
      intro parts size summ
      rw [backgroundPass]
      split
      · obtain ⟨⟨extra, h1⟩, h2⟩ :=
          ih (parts ++ [file.content]) (size + file.content.length) summ
        refine ⟨⟨file.content :: extra, by rw [h1, List.append_assoc]; rfl⟩, ?_⟩
        intro n hn
        rcases h2 n hn with h | ⟨f, hf, hnf⟩
        · exact Or.inl h
        · exact Or.inr ⟨f, List.mem_cons_of_mem _ hf, hnf⟩
      · obtain ⟨⟨extra, h1⟩, h2⟩ :=
          ih parts size (summ ++ [file.filename])
        refine ⟨⟨extra, h1⟩, ?_⟩
        intro n hn
        rcases h2 n hn with h | ⟨f, hf, hnf⟩
        · rcases List.mem_append.mp h with h | h
          · exact Or.inl h
          · exact Or.inr ⟨file, List.mem_cons_self _ _, List.mem_singleton.mp h⟩
        · exact Or.inr ⟨f, List.mem_cons_of_mem _ hf, hnf⟩

/-- C4 (amended): only background (non-matching) sections are ever fully
omitted — every omitted filename belongs to a section matching no rule — and
every prioritized (rule-matched) section contributes a part to the output:
its whole content or its 100- or 50-line truncation.  (The claimed length
bound `≤ maxChars + footer` does not hold; see the counterexample.) -/
theorem truncateDiff_prioritized_kept (diff : String) (maxSize : Nat)
    (rules : List Rule) :
    (∀ name ∈ (truncateDiff diff maxSize rules).filesSummarized,
       ∃ f ∈ parseDiffFiles diff,
         name = f.filename ∧ fileMatchesRules f.filename rules = false) ∧
    (maxSize < diff.length →
       ∃ chosen rest, (truncateAssemble diff maxSize rules).1 = chosen ++ rest ∧
         List.Forall₂ PartOfFile chosen
           ((parseDiffFiles diff).filter fun f =>
              fileMatchesRules f.filename rules)) := by
  have hfs : (truncateAssemble diff maxSize rules).2 =
      (backgroundPass maxSize
        ((parseDiffFiles diff).filter fun f => !fileMatchesRules f.filename rules)
        (triggeredPass maxSize
          ((parseDiffFiles diff).filter fun f => fileMatchesRules f.filename rules)
          [] 0).1
        (triggeredPass maxSize
          ((parseDiffFiles diff).filter fun f => fileMatchesRules f.filename rules)
          [] 0).2 []).2.2 := rfl
  have hval : (truncateDiff diff maxSize rules).filesSummarized = [] ∨
      (truncateDiff diff maxSize rules).filesSummarized =
        (truncateAssemble diff maxSize rules).2 := by
    unfold truncateDiff
    split
    · exact Or.inl rfl
    · exact Or.inr rfl
  constructor
  · intro name hname
    rcases hval with hv | hv
    · rw [hv] at hname
      exact absurd hname (List.not_mem_nil name)
    · rw [hv, hfs] at hname
      have hbg := (backgroundPass_spec maxSize
        ((parseDiffFiles diff).filter fun f => !fileMatchesRules f.filename rules)
        (triggeredPass maxSize
          ((parseDiffFiles diff).filter fun f => fileMatchesRules f.filename rules)
          [] 0).1
        (triggeredPass maxSize
          ((parseDiffFiles diff).filter fun f => fileMatchesRules f.filename rules)
          [] 0).2 []).2 name hname
      rcases hbg with h | ⟨f, hf, hnf⟩
      · exact absurd h (List.not_mem_nil name)
      · have := List.mem_filter.mp hf
        refine ⟨f, this.1, hnf, ?_⟩
        have h2 := this.2
        simp only [Bool.not_eq_eq_eq_not, Bool.not_true] at h2
        exact h2
  · intro _
    obtain ⟨chosen, h1, h2⟩ := triggeredPass_spec maxSize
      ((parseDiffFiles diff).filter fun f => fileMatchesRules f.filename rules) [] 0
    obtain ⟨⟨extra, h3⟩, _⟩ := backgroundPass_spec maxSize
      ((parseDiffFiles diff).filter fun f => !fileMatchesRules f.filename rules)
      (triggeredPass maxSize
        ((parseDiffFiles diff).filter fun f => fileMatchesRules f.filename rules)
        [] 0).1
      (triggeredPass maxSize
        ((parseDiffFiles diff).filter fun f => fileMatchesRules f.filename rules)
        [] 0).2 []
    have h4 : (backgroundPass maxSize
        ((parseDiffFiles diff).filter fun f => !fileMatchesRules f.filename rules)
        (triggeredPass maxSize
          ((parseDiffFiles diff).filter fun f => fileMatchesRules f.filename rules)
          [] 0).1
        (triggeredPass maxSize
          ((parseDiffFiles diff).filter fun f => fileMatchesRules f.filename rules)
          [] 0).2 []).1 = chosen ++ extra := by
      rw [h3, h1, List.nil_append]
    simp only [truncateAssemble]
    split
    · exact ⟨chosen, extra, h4, h2⟩
    · exact ⟨chosen, extra ++ [omittedSummary _], by rw [h4, List.append_assoc], h2⟩

/-- C4 counterexample to the claimed length bound: a 50-character diff with
a single rule-matched section and budget 12 produces a 50-character output
with an empty omitted list (so the trailing omitted-files block is empty),
exceeding `maxChars` — the 50-line fallback bounds lines, not characters. -/
theorem truncateDiff_length_bound_counterexample :
    (truncateDiff c4Diff 12 [c4Rule]).filesSummarized = [] ∧
      (truncateDiff c4Diff 12 [c4Rule]).diff.length = 50 ∧ 12 + 0 < 50 := by
  refine ⟨by decide, by decide, by decide⟩

/-- C4 witness: instantiating the amended theorem on the counterexample
input shows the prioritized section is kept (as its 50-line truncation,
which here is the whole 50-character section). -/
theorem truncateDiff_prioritized_kept_witness :
    ∃ chosen rest, (truncateAssemble c4Diff 12 [c4Rule]).1 = chosen ++ rest ∧
      List.Forall₂ PartOfFile chosen
        ((parseDiffFiles c4Diff).filter fun f =>
           fileMatchesRules f.filename [c4Rule]) :=
  (truncateDiff_prioritized_kept c4Diff 12 [c4Rule]).2 (by decide)

/-! ## C3 — companion patterns do not gate detection -/

/-- C3 (amended): companion path patterns play no part in classification —
`migration-entity` (the only skill declaring `companionPaths`) is active
whenever one of its primary path patterns matches a changed path, no matter
which companion paths are also present; its `detect` is
`pathMatch || contentMatch` and never consults `companionPaths`. -/
theorem migrationEntity_active_of_pathMatch (filesChanged : List String)
    (diffContent : String)
    (h : matchesPaths filesChanged migrationEntityPaths = true) :
    migrationEntity ∈ detectActiveSkills filesChanged diffContent := by
  refine List.mem_filter.mpr ⟨?_, ?_⟩
  · exact List.mem_cons_self _ _
  · show migrationEntity.detect filesChanged diffContent = true
    show (matchesPaths filesChanged migrationEntityPaths ||
      matchesContent diffContent migrationEntityContent) = true
    rw [h, Bool.true_or]

/-- C3 counterexample: with both an entity file and a migration file
changed (and an empty diff body), `migration-entity` still fires even
though a changed path matches its companion patterns — the claim that it
"does not fire when a changed path matches one of its companionPaths" is
false on the code. -/
theorem migrationEntity_companion_counterexample :
    migrationEntity ∈
      detectActiveSkills ["app/entities/user.ts", "app/migrations/001.sql"] "" ∧
    matchesPaths ["app/migrations/001.sql"]
      (migrationEntity.companionPaths.getD []) = true := by
  refine ⟨List.mem_filter.mpr ⟨?_, ?_⟩, ?_⟩
  · exact List.mem_cons_self _ _
  · decide
  · decide

/-- C3 witness: concrete instantiation of the amended theorem. -/
theorem migrationEntity_active_of_pathMatch_witness :
    migrationEntity ∈ detectActiveSkills ["src/models/user.py"] "unrelated" :=
  migrationEntity_active_of_pathMatch ["src/models/user.py"] "unrelated"
    (by decide)

/-! ## C2 — `analyzeDiff` can throw past its boundary -/

/-- C2 (code bug): a non-404 failure while fetching triggered file bodies
escapes `analyzeDiff` as a thrown error (`.error 403`) instead of the
documented "no result" signal, because the `fetchTriggeredFileContents`
call sits outside the `try`/`catch`; the same environment's model-call
failure would have been caught (second conjunct: with a fetch that
succeeds, the SDK error collapses to `.ok none`). -/
theorem analyzeDiff_throws_on_fetch_auth_error :
    analyzeDiff c2Env c2Diff c2Config c2PrMeta = .error 403 ∧
    analyzeDiff { c2Env with getContent := fun _ => .file "body" } c2Diff
      c2Config c2PrMeta = .ok none := by
  constructor
  · rfl
  · rfl

/-! ## C10 — fetching full file bodies for triggered rules -/

theorem setAssoc_mem {m : List (String × String)} {k v : String}
    {kv : String × String} (h : kv ∈ setAssoc m k v) :
    kv ∈ m ∨ kv = (k, v) := by
  unfold setAssoc at h
  split at h
  · obtain ⟨kv', hkv', heq⟩ := List.mem_map.mp h
    by_cases hk : kv'.1 == k
    · rw [if_pos hk] at heq
      exact Or.inr heq.symm
    · rw [if_neg hk] at heq
      exact Or.inl (heq ▸ hkv')
  · rcases List.mem_append.mp h with h | h
    · exact Or.inl h
    · exact Or.inr (List.mem_singleton.mp h)

theorem setAssoc_length (m : List (String × String)) (k v : String) :
    (setAssoc m k v).length ≤ m.length + 1 := by
  unfold setAssoc
  split
  · rw [List.length_map]
    exact Nat.le_succ _
  · rw [List.length_append]
    exact Nat.le_refl _

theorem fetchLoop_ok_spec (env : AnalyzeEnv) (fs : List String) :
    ∀ (acc res : List (String × String)), fetchLoop env fs acc = .ok res →
      res.length ≤ acc.length + fs.length ∧
      ∀ kv ∈ res, kv ∈ acc ∨
        (kv.1 ∈ fs ∧ ∃ raw, env.getContent kv.1 = .file raw ∧
          kv.2 = truncateFetched raw) := by
  induction fs with
  | nil =>
      intro acc res h
      rw [fetchLoop] at h
      cases h
      exact ⟨Nat.le_refl _, fun kv hkv => Or.inl hkv⟩
  | cons f rest ih =>
      intro acc res h
      rw [fetchLoop] at h
      rcases hg : env.getContent f with content | _ | status <;> rw [hg] at h
      · have h' : fetchLoop env rest (setAssoc acc f (truncateFetched content)) =
            .ok res := h
        obtain ⟨hlen, hmem⟩ := ih (setAssoc acc f (truncateFetched content)) res h'
        constructor
        · have hs := setAssoc_length acc f (truncateFetched content)
          simp only [List.length_cons]
          omega
        · intro kv hkv
          rcases hmem kv hkv with hkv' | ⟨hf, raw, hraw, hv⟩
          · rcases setAssoc_mem hkv' with hin | heq
            · exact Or.inl hin
            · refine Or.inr ⟨?_, content, ?_, ?_⟩
              · rw [heq]; exact List.mem_cons_self _ _
              · rw [heq]; exact hg
              · rw [heq]
          · exact Or.inr ⟨List.mem_cons_of_mem _ hf, raw, hraw, hv⟩
      · have h' : fetchLoop env rest acc = .ok res := h
        obtain ⟨hlen, hmem⟩ := ih acc res h'
        refine ⟨by simp only [List.length_cons]; omega, ?_⟩
        intro kv hkv
        rcases hmem kv hkv with h'' | ⟨hf, rest'⟩
        · exact Or.inl h''
        · exact Or.inr ⟨List.mem_cons_of_mem _ hf, rest'⟩
      · have h' : (if (status == 404) = true then fetchLoop env rest acc
            else Except.error status) = .ok res := h
        split at h'
        · obtain ⟨hlen, hmem⟩ := ih acc res h'
          refine ⟨by simp only [List.length_cons]; omega, ?_⟩
          intro kv hkv
          rcases hmem kv hkv with h'' | ⟨hf, rest'⟩
          · exact Or.inl h''
          · exact Or.inr ⟨List.mem_cons_of_mem _ hf, rest'⟩
        · exact (Except.noConfusion h')

theorem fetchLoop_ok_of_only_404 (env : AnalyzeEnv)
    (h404 : ∀ f s, env.getContent f = .httpError s → s = 404)
    (fs : List String) : ∀ acc, ∃ res, fetchLoop env fs acc = .ok res := by
  induction fs with
  | nil => intro acc; exact ⟨acc, rfl⟩
  | cons f rest ih =>
      intro acc
      rw [fetchLoop]
      rcases hg : env.getContent f with content | _ | status
      · exact ih _
      · exact ih _
      · have hstatus : status = 404 := h404 f status hg
        subst hstatus
        obtain ⟨res, hres⟩ := ih acc
        exact ⟨res, hres⟩

/-- C10: `fetchTriggeredFileContents` (1) returns the empty map when no
rule sets `include_full_files`; (2) on success returns at most 5 entries,
each keyed by a changed file matching a path pattern of some
`include_full_files` rule and holding the 500-line truncation of the
fetched content; (3) succeeds whenever every fetch failure is an HTTP 404
(those files are skipped silently and, by (2), absent from the map). -/
theorem fetchTriggeredFileContents_spec (env : AnalyzeEnv)
    (rules : List Rule) (filesChanged : List String) :
    ((∀ rule ∈ rules, rule.trigger.include_full_files.getD false = false) →
       fetchTriggeredFileContents env rules filesChanged = .ok []) ∧
    (∀ res, fetchTriggeredFileContents env rules filesChanged = .ok res →
       res.length ≤ 5 ∧
       ∀ kv ∈ res,
         kv.1 ∈ filesChanged ∧
         (∃ rule ∈ rules,
            rule.trigger.include_full_files.getD false = true ∧
            ∃ pat ∈ rule.trigger.paths.getD [], minimatch kv.1 pat = true) ∧
         ∃ raw, env.getContent kv.1 = .file raw ∧
           kv.2 = truncateFetched raw) ∧
    ((∀ f s, env.getContent f = .httpError s → s = 404) →
       ∃ res, fetchTriggeredFileContents env rules filesChanged = .ok res) := by
  refine ⟨?_, ?_, ?_⟩
  · intro hnone
    have hempty : fullFilePatterns rules = [] := by
      rw [fullFilePatterns, List.flatMap_eq_nil_iff]
      intro rule hrule
      rw [hnone rule hrule]
      simp
    unfold fetchTriggeredFileContents
    rw [hempty]
    rfl
  · intro res hres
    unfold fetchTriggeredFileContents at hres
    split at hres
    · cases hres
      exact ⟨by simp, fun kv hkv => absurd hkv (List.not_mem_nil kv)⟩
    · obtain ⟨hlen, hmem⟩ := fetchLoop_ok_spec env _ [] res hres
      constructor
      · refine Nat.le_trans hlen ?_
        simp only [List.length_nil, Nat.zero_add]
        exact List.length_take_le _ _
      · intro kv hkv
        rcases hmem kv hkv with h | ⟨hf, raw, hraw, hv⟩
        · exact absurd h (List.not_mem_nil kv)
        · have hf' := List.mem_of_mem_take hf
          have hfilter := List.mem_filter.mp hf'
          refine ⟨hfilter.1, ?_, raw, hraw, hv⟩
          have hany := hfilter.2
          rw [List.any_eq_true] at hany
          obtain ⟨pat, hpat, hmm⟩ := hany
          rw [fullFilePatterns] at hpat
          obtain ⟨rule, hrule, hpat'⟩ := List.mem_flatMap.mp hpat
          refine ⟨rule, hrule, ?_, pat, ?_, hmm⟩
          · by_cases hc : rule.trigger.include_full_files.getD false &&
                !(rule.trigger.paths.getD []).isEmpty
            · exact (Bool.and_eq_true _ _ |>.mp hc).1
            · rw [if_neg hc] at hpat'
              exact absurd hpat' (List.not_mem_nil pat)
          · by_cases hc : rule.trigger.include_full_files.getD false &&
                !(rule.trigger.paths.getD []).isEmpty
            · rw [if_pos hc] at hpat'
              exact hpat'
            · rw [if_neg hc] at hpat'
              exact absurd hpat' (List.not_mem_nil pat)
  · intro h404
    unfold fetchTriggeredFileContents
    split
    · exact ⟨[], rfl⟩
    · exact fetchLoop_ok_of_only_404 env h404 _ []

/-- C10 witness: a catalog whose only rule does not request full files
yields the empty map. -/
theorem fetchTriggeredFileContents_spec_witness :
    fetchTriggeredFileContents c2Env [c4Rule] ["x"] = .ok [] :=
  (fetchTriggeredFileContents_spec c2Env [c4Rule] ["x"]).1 (by decide)

/-! ## C9 — debouncing per PR key -/

theorem find?_map_replace (p : List (String × Nat)) (k : String) (tid : Nat)
    (h : p.any (fun kv => kv.1 == k) = true) :
    ((p.map fun kv => if kv.1 == k then (k, tid) else kv).find?
      fun kv => kv.1 == k) = some (k, tid) := by
  induction p with
  | nil => simp at h
  | cons kv p ih =>
      by_cases hk : (kv.1 == k) = true
      · rw [List.map_cons, if_pos hk]
        exact List.find?_cons_of_pos _ (by simp)
      · rw [List.map_cons, if_neg hk, List.find?_cons_of_neg _ (by simp [hk])]
        apply ih
        rcases List.any_eq_true.mp h with ⟨kv', hkv', hk'⟩
        rcases List.mem_cons.mp hkv' with rfl | hkv'
        · exact absurd hk' (by simp [hk])
        · exact List.any_eq_true.mpr ⟨kv', hkv', hk'⟩

theorem find?_append_single (p : List (String × Nat)) (k : String) (tid : Nat)
    (h : p.any (fun kv => kv.1 == k) = false) :
    ((p ++ [(k, tid)]).find? fun kv => kv.1 == k) = some (k, tid) := by
  induction p with
  | nil => exact List.find?_cons_of_pos _ (by simp)
  | cons kv p ih =>
      simp only [List.any_cons, Bool.or_eq_false_iff] at h
      rw [List.cons_append, List.find?_cons_of_neg _ (by simp [h.1])]
      exact ih h.2

theorem lookupKey_setPending_same (p : List (String × Nat)) (k : String)
    (tid : Nat) : lookupKey (setPending p k tid) k = some tid := by
  unfold setPending lookupKey
  split
  next h =>
    rw [find?_map_replace _ _ _ h]
    rfl
  next h =>
    rw [find?_append_single _ _ _ (by rwa [Bool.not_eq_true] at h)]
    rfl

theorem find?_map_replace_other (p : List (String × Nat)) (k k' : String)
    (tid : Nat) (hne : (k == k') = false) :
    ((p.map fun kv => if kv.1 == k then (k, tid) else kv).find?
      fun kv => kv.1 == k') = p.find? fun kv => kv.1 == k' := by
  induction p with
  | nil => rfl
  | cons kv p ih =>
      by_cases hk : (kv.1 == k) = true
      · have h2 : (kv.1 == k') = false := by
          have he : kv.1 = k := by simpa using hk
          rw [he]; exact hne
        rw [List.map_cons, if_pos hk,
          List.find?_cons_of_neg _ (by simp [hne]),
          List.find?_cons_of_neg _ (by simp [h2])]
        exact ih
      · rw [List.map_cons, if_neg hk]
        by_cases hk' : (kv.1 == k') = true
        · rw [List.find?_cons_of_pos _ (by simp [hk']),
            List.find?_cons_of_pos _ (by simp [hk'])]
        · rw [List.find?_cons_of_neg _ (by simp [hk']),
            List.find?_cons_of_neg _ (by simp [hk'])]
          exact ih

theorem find?_append_single_other (p : List (String × Nat)) (k k' : String)
    (tid : Nat) (hne : (k == k') = false) :
    ((p ++ [(k, tid)]).find? fun kv => kv.1 == k') =
      p.find? fun kv => kv.1 == k' := by
  induction p with
  | nil => simp [List.find?, hne]
  | cons kv p ih =>
      by_cases hk' : (kv.1 == k') = true
      · rw [List.cons_append, List.find?_cons_of_pos _ (by simp [hk']),
          List.find?_cons_of_pos _ (by simp [hk'])]
      · rw [List.cons_append, List.find?_cons_of_neg _ (by simp [hk']),
          List.find?_cons_of_neg _ (by simp [hk'])]
        exact ih

theorem lookupKey_setPending_other (p : List (String × Nat)) (k k' : String)
    (tid : Nat) (hne : k' ≠ k) :
    lookupKey (setPending p k tid) k' = lookupKey p k' := by
  have hbe : (k == k') = false := by
    rw [beq_eq_false_iff_ne]
    exact fun e => hne e.symm
  unfold setPending lookupKey
  split
  · rw [find?_map_replace_other p k k' tid hbe]
  · rw [find?_append_single_other p k k' tid hbe]

theorem clearTimer_mem {α : Type} {timers : List (Timer α)} {tid : Nat}
    {t : Timer α} (h : t ∈ clearTimer timers tid) :
    ∃ t₀ ∈ timers,
      (t = t₀ ∧ t₀.id ≠ tid) ∨
      (t = { t₀ with cancelled := true } ∧ t₀.id = tid) := by
  obtain ⟨t₀, ht₀, heq⟩ := List.mem_map.mp h
  refine ⟨t₀, ht₀, ?_⟩
  by_cases hid : (t₀.id == tid) = true
  · rw [if_pos hid] at heq
    exact Or.inr ⟨heq.symm, by simpa using hid⟩
  · rw [if_neg hid] at heq
    exact Or.inl ⟨heq.symm, by simpa using hid⟩

theorem clearTimer_map_id {α : Type} (timers : List (Timer α)) (tid : Nat) :
    (clearTimer timers tid).map (·.id) = timers.map (·.id) := by
  unfold clearTimer
  rw [List.map_map]
  apply List.map_congr_left
  intro t _
  by_cases hid : (t.id == tid) = true
  · simp [Function.comp, hid]
  · simp [Function.comp, hid]

theorem fireTimer_none_of_cancelled {α : Type} {s : DebounceState α}
    {tid : Nat} (h : ∀ t ∈ s.timers, t.id = tid → t.cancelled = true) :
    (fireTimer s tid).1 = none := by
  unfold fireTimer
  cases hf : s.timers.find? (fun t => t.id == tid) with
  | none => rfl
  | some t =>
      have hmem := List.mem_of_find?_eq_some hf
      have hpred := List.find?_some hf
      have hc : t.cancelled = true := h t hmem (by simpa using hpred)
      simp [hc]

theorem find?_append_of_none {α : Type} {l₁ l₂ : List α} {p : α → Bool}
    (h : l₁.find? p = none) : (l₁ ++ l₂).find? p = l₂.find? p := by
  induction l₁ with
  | nil => rfl
  | cons a l₁ ih =>
      rw [List.find?_cons] at h
      rcases hp : p a with _ | _
      · rw [List.cons_append, List.find?_cons_of_neg _ (by simp [hp])]
        rw [hp] at h
        exact ih h
      · rw [hp] at h
        exact absurd h (by simp)

theorem debouncePR_timers {α : Type} (s : DebounceState α) (k : String)
    (d : Nat) (cb : α) :
    (debouncePR k d cb s).timers =
      (match lookupPending s k with
       | some tid => clearTimer s.timers tid
       | none => s.timers) ++ [⟨s.nextId, k, d, cb, false⟩] := rfl

theorem debouncePR_pending {α : Type} (s : DebounceState α) (k : String)
    (d : Nat) (cb : α) :
    (debouncePR k d cb s).pending = setPending s.pending k s.nextId := rfl

theorem debouncePR_nextId {α : Type} (s : DebounceState α) (k : String)
    (d : Nat) (cb : α) : (debouncePR k d cb s).nextId = s.nextId + 1 := rfl

/-- The invariant holds of the initial state (empty pending map, no
timers). -/
theorem debounceWF_init {α : Type} : DebounceWF (⟨[], [], 0⟩ : DebounceState α) := by
  refine ⟨?_, ?_, ?_⟩ <;> simp [List.Nodup]

/-- Cleared-or-untouched old timers: membership transfer with id bound. -/
theorem oldTimers_mem {α : Type} {s : DebounceState α} {k : String}
    {t : Timer α}
    (ht : t ∈ (match lookupPending s k with
       | some tid => clearTimer s.timers tid
       | none => s.timers)) :
    ∃ t₀ ∈ s.timers, t.id = t₀.id ∧ t.key = t₀.key ∧
      (t.cancelled = false → t = t₀) := by
  cases hlk : lookupPending s k with
  | some tid =>
      rw [hlk] at ht
      obtain ⟨t₀, ht₀, hc⟩ := clearTimer_mem ht
      rcases hc with ⟨heq, _⟩ | ⟨heq, _⟩
      · exact ⟨t₀, ht₀, by rw [heq], by rw [heq], fun _ => heq⟩
      · refine ⟨t₀, ht₀, by rw [heq], by rw [heq], fun hcf => ?_⟩
        rw [heq] at hcf
        simp at hcf
  | none =>
      rw [hlk] at ht
      exact ⟨t, ht, rfl, rfl, fun _ => rfl⟩

/-- `debouncePR` preserves the debounce invariant. -/
theorem debounceWF_debouncePR {α : Type} (s : DebounceState α) (k : String)
    (d : Nat) (cb : α) (hwf : DebounceWF s) :
    DebounceWF (debouncePR k d cb s) := by
  obtain ⟨hlt, hnodup, hlive⟩ := hwf
  refine ⟨?_, ?_, ?_⟩
  · intro t ht
    rw [debouncePR_timers] at ht
    rw [debouncePR_nextId]
    rcases List.mem_append.mp ht with ht | ht
    · obtain ⟨t₀, ht₀, hid, _, _⟩ := oldTimers_mem ht
      have := hlt t₀ ht₀
      omega
    · rw [List.mem_singleton.mp ht]
      simp
  · rw [debouncePR_timers, List.map_append, List.nodup_append]
    have hmapeq : (match lookupPending s k with
        | some tid => clearTimer s.timers tid
        | none => s.timers).map (fun t : Timer α => t.id) =
          s.timers.map (fun t : Timer α => t.id) := by
      cases hlk : lookupPending s k with
      | some tid => exact clearTimer_map_id s.timers tid
      | none => rfl
    rw [hmapeq]
    refine ⟨hnodup, by simp, ?_⟩
    intro a ha hb
    simp only [List.map_cons, List.map_nil, List.mem_singleton] at hb
    obtain ⟨t₀, ht₀, rfl⟩ := List.mem_map.mp ha
    have := hlt t₀ ht₀
    omega
  · intro t ht hc
    rw [debouncePR_timers] at ht
    show lookupKey (setPending s.pending k s.nextId) t.key = some t.id
    rcases List.mem_append.mp ht with ht | ht
    · obtain ⟨t₀, ht₀, hid, hkey, hcf⟩ := oldTimers_mem ht
      have heqt := hcf hc
      subst heqt
      have hl := hlive t ht₀ hc
      by_cases hkeyk : t.key = k
      · -- a live old timer for `k` cannot survive the clear
        cases hlk : lookupPending s k with
        | some tid =>
            rw [hlk] at ht
            rw [hkeyk, hlk] at hl
            have htid : tid = t.id := Option.some.inj hl
            subst htid
            obtain ⟨t₁, _, hcc⟩ := clearTimer_mem ht
            rcases hcc with ⟨heq, hne⟩ | ⟨heq, _⟩
            · exact absurd (congrArg Timer.id heq).symm hne
            · rw [heq] at hc
              simp at hc
        | none =>
            rw [hkeyk, hlk] at hl
            cases hl
      · rw [lookupKey_setPending_other _ _ _ _ hkeyk]
        exact hl
    · rw [List.mem_singleton.mp ht]
      exact lookupKey_setPending_same _ _ _

/-- C9: on a well-formed state, a second `debouncePR` for the same key
cancels the first call's timer and replaces it: the first timer is recorded
pending after call one; after call two it is cancelled and the pending entry
names the new timer; the first callback can no longer fire while the new one
does; the key's only live timer carries the most recent callback; and the
invariant is maintained. -/
theorem debouncePR_replaces {α : Type} (s s1 s2 : DebounceState α)
    (k : String) (d1 d2 : Nat) (cb1 cb2 : α) (hwf : DebounceWF s)
    (h1 : s1 = debouncePR k d1 cb1 s) (h2 : s2 = debouncePR k d2 cb2 s1) :
    lookupPending s1 k = some s.nextId ∧
    (∀ t ∈ s2.timers, t.id = s.nextId → t.cancelled = true) ∧
    lookupPending s2 k = some (s.nextId + 1) ∧
    (fireTimer s2 s.nextId).1 = none ∧
    (fireTimer s2 (s.nextId + 1)).1 = some cb2 ∧
    (liveTimersFor s2 k).map (·.callback) = [cb2] ∧
    DebounceWF s2 := by
  have hwf1 : DebounceWF s1 := h1 ▸ debounceWF_debouncePR s k d1 cb1 hwf
  have hwf2 : DebounceWF s2 := h2 ▸ debounceWF_debouncePR s1 k d2 cb2 hwf1
  have hlk1 : lookupPending s1 k = some s.nextId := by
    rw [h1]
    show lookupKey (setPending s.pending k s.nextId) k = some s.nextId
    exact lookupKey_setPending_same _ _ _
  have hn1 : s1.nextId = s.nextId + 1 := by rw [h1]; rfl
  have ht2 : s2.timers =
      clearTimer s1.timers s.nextId ++ [⟨s1.nextId, k, d2, cb2, false⟩] := by
    rw [h2]
    unfold debouncePR
    rw [hlk1]
  have hcancel : ∀ t ∈ s2.timers, t.id = s.nextId → t.cancelled = true := by
    intro t ht hid
    rw [ht2] at ht
    rcases List.mem_append.mp ht with ht | ht
    · obtain ⟨t₀, _, hc⟩ := clearTimer_mem ht
      rcases hc with ⟨rfl, hne⟩ | ⟨rfl, _⟩
      · exact absurd hid hne
      · rfl
    · rw [List.mem_singleton.mp ht] at hid
      simp only at hid
      omega
  have hids1 : ∀ t ∈ s1.timers, t.id < s1.nextId := hwf1.1
  refine ⟨hlk1, hcancel, ?_, ?_, ?_, ?_, hwf2⟩
  · rw [h2]
    show lookupKey (setPending s1.pending k s1.nextId) k = some (s.nextId + 1)
    rw [lookupKey_setPending_same, hn1]
  · exact fireTimer_none_of_cancelled hcancel
  · unfold fireTimer
    have hfind : s2.timers.find? (fun t => t.id == s.nextId + 1) =
        some ⟨s1.nextId, k, d2, cb2, false⟩ := by
      rw [ht2]
      rw [find?_append_of_none ?hnone]
      case hnone =>
        rw [List.find?_eq_none]
        intro t ht
        obtain ⟨t₀, ht₀, hc⟩ := clearTimer_mem ht
        have hlt₀ := hids1 t₀ ht₀
        rw [hn1] at hlt₀
        have hidt : t.id = t₀.id := by
          rcases hc with ⟨rfl, _⟩ | ⟨rfl, _⟩ <;> rfl
        simp only [beq_iff_eq, hidt]
        omega
      rw [List.find?_cons_of_pos _ (by simp [hn1])]
    rw [hfind]
    rfl
  · unfold liveTimersFor
    rw [ht2, List.filter_append]
    have hleft : (clearTimer s1.timers s.nextId).filter
        (fun t => t.key == k && !t.cancelled) = [] := by
      rw [List.filter_eq_nil_iff]
      intro t ht
      obtain ⟨t₀, ht₀, hc⟩ := clearTimer_mem ht
      rcases hc with ⟨heq, hne⟩ | ⟨heq, _⟩
      · intro hp
        rw [heq] at hp
        have hp' := Bool.and_eq_true _ _ |>.mp hp
        have hkey : t₀.key = k := by simpa using hp'.1
        have hcanc : t₀.cancelled = false := by simpa using hp'.2
        have hl := hwf1.2.2 t₀ ht₀ hcanc
        rw [hkey, hlk1] at hl
        exact hne (Option.some.inj hl).symm
      · rw [heq]
        simp
    rw [hleft, List.nil_append,
      List.filter_cons_of_pos (by simp), List.filter_nil]
    rfl

/-- C9 witness: starting from the empty state, two debounce calls for the
same PR key leave the first callback unable to fire and the second one
live. -/
theorem debouncePR_replaces_witness :
    (fireTimer (debouncePR "o/r#1" 5000 (2 : Nat)
        (debouncePR "o/r#1" 5000 (1 : Nat) ⟨[], [], 0⟩)) 0).1 = none ∧
    (fireTimer (debouncePR "o/r#1" 5000 (2 : Nat)
        (debouncePR "o/r#1" 5000 (1 : Nat) ⟨[], [], 0⟩)) 1).1 = some 2 := by
  have h := debouncePR_replaces (α := Nat) ⟨[], [], 0⟩
    (debouncePR "o/r#1" 5000 1 ⟨[], [], 0⟩)
    (debouncePR "o/r#1" 5000 2 (debouncePR "o/r#1" 5000 1 ⟨[], [], 0⟩))
    "o/r#1" 5000 5000 1 2 debounceWF_init rfl rfl
  exact ⟨h.2.2.2.1, h.2.2.2.2.1⟩

/-! ## Checklist helper lemmas -/

theorem dropPre_self (pre : List Char) : ∀ t, dropPre pre (pre ++ t) = some t := by
  induction pre with
  | nil => intro t; rfl
  | cons p ps ih =>
      intro t
      simp only [List.cons_append, dropPre, if_pos rfl]
      exact ih t

theorem dropSuf_self (suf t : List Char) : dropSuf suf (t ++ suf) = some t := by
  unfold dropSuf
  rw [List.reverse_append, dropPre_self]
  simp

theorem isPrefixOf_append_self (l : List Char) : ∀ t, l.isPrefixOf (l ++ t) = true := by
  induction l with
  | nil => intro t; simp [List.isPrefixOf]
  | cons a l ih =>
      intro t
      simp only [List.cons_append, List.isPrefixOf, beq_self_eq_true,
        Bool.true_and]
      exact ih t

theorem joinChar_cons (c : Char) (p q : List Char) (qs : List (List Char)) :
    joinChar c (p :: q :: qs) = p ++ c :: joinChar c (q :: qs) := rfl

theorem containsSeq_self_append (l t : List Char) :
    containsSeq l (l ++ t) = true := by
  cases l with
  | nil =>
      cases t with
      | nil => rfl
      | cons c cs => simp [containsSeq, List.isPrefixOf]
  | cons a l =>
      rw [List.cons_append, containsSeq]
      rw [show (a :: l).isPrefixOf (a :: (l ++ t)) = true from
        isPrefixOf_append_self (a :: l) t]
      rfl

theorem containsSeq_append_left (n : List Char) (s : List Char) :
    ∀ t, containsSeq n t = true → containsSeq n (s ++ t) = true := by
  induction s with
  | nil => intro t h; exact h
  | cons a s ih =>
      intro t h
      rw [List.cons_append, containsSeq, ih t h, Bool.or_true]

theorem containsSeq_join_of_mem {l : List Char} {pieces : List (List Char)}
    (h : l ∈ pieces) (c : Char) : containsSeq l (joinChar c pieces) = true := by
  induction pieces with
  | nil => exact absurd h (List.not_mem_nil l)
  | cons p ps ih =>
      rcases List.mem_cons.mp h with rfl | h
      · cases ps with
        | nil => simpa using containsSeq_self_append l []
        | cons q qs =>
            rw [joinChar_cons]
            exact containsSeq_self_append l _
      · cases ps with
        | nil => exact absurd h (List.not_mem_nil l)
        | cons q qs =>
            rw [joinChar_cons]
            refine containsSeq_append_left l p _ ?_
            rw [show (c :: joinChar c (q :: qs)) = [c] ++ joinChar c (q :: qs)
              from rfl]
            exact containsSeq_append_left l [c] _ (ih h)

theorem priorityIs_high_of (x : ChecklistItem) :
    priorityIs .high x = true ∨ priorityIs .medium x = true ∨
      priorityIs .low x = true := by
  unfold priorityIs
  cases x.priority <;> simp

theorem sortItems_perm (items : List ChecklistItem) :
    (sortItems items).Perm items := by
  induction items with
  | nil => rfl
  | cons x xs ih =>
      unfold sortItems at ih ⊢
      rcases hx : x.priority with _ | _ | _
      · have h1 : priorityIs .high x = true := by simp [priorityIs, hx]
        have h2 : priorityIs .medium x = false := by simp [priorityIs, hx]
        have h3 : priorityIs .low x = false := by simp [priorityIs, hx]
        rw [List.filter_cons_of_pos h1, List.filter_cons_of_neg (by simp [h2]),
          List.filter_cons_of_neg (by simp [h3])]
        rw [List.cons_append, List.cons_append]
        exact (ih.cons x)
      · have h1 : priorityIs .high x = false := by simp [priorityIs, hx]
        have h2 : priorityIs .medium x = true := by simp [priorityIs, hx]
        have h3 : priorityIs .low x = false := by simp [priorityIs, hx]
        rw [List.filter_cons_of_neg (by simp [h1]), List.filter_cons_of_pos h2,
          List.filter_cons_of_neg (by simp [h3])]
        rw [List.append_assoc, List.cons_append]
        refine List.Perm.trans List.perm_middle (List.Perm.cons x ?_)
        rw [← List.append_assoc]
        exact ih
      · have h1 : priorityIs .high x = false := by simp [priorityIs, hx]
        have h2 : priorityIs .medium x = false := by simp [priorityIs, hx]
        have h3 : priorityIs .low x = true := by simp [priorityIs, hx]
        rw [List.filter_cons_of_neg (by simp [h1]),
          List.filter_cons_of_neg (by simp [h2]), List.filter_cons_of_pos h3]
        exact List.Perm.trans List.perm_middle (List.Perm.cons x ih)

theorem sortItems_mem {items : List ChecklistItem} {it : ChecklistItem}
    (h : it ∈ sortItems items) : it ∈ items := by
  unfold sortItems at h
  rcases List.mem_append.mp h with h | h
  · rcases List.mem_append.mp h with h | h
    · exact (List.mem_filter.mp h).1
    · exact (List.mem_filter.mp h).1
  · exact (List.mem_filter.mp h).1

/-! ## C1 — merge inherits checked flags by identity key -/

/-- C1: the merged document renders exactly the items of `newResult` (a
permutation of them); an item whose identity key (rule id, description)
matches no old item is unchecked; an item whose key occurs in the old state
carries a matching old item's checked flag; keys of old items absent from
the new result appear nowhere among the rendered items; and the document
embeds the new version id. -/
theorem mergeChecklist_spec (oldState : ChecklistState)
    (newResult : AnalysisResult) (v : String) :
    ((mergeStates oldState newResult).map Prod.fst).Perm newResult.items ∧
    (∀ st ∈ mergeStates oldState newResult,
       (∀ p ∈ oldState.items,
          ¬(p.rule_id = st.1.rule_id ∧ p.description = st.1.description)) →
       st.2 = false) ∧
    (∀ st ∈ mergeStates oldState newResult,
       (∃ p ∈ oldState.items,
          p.rule_id = st.1.rule_id ∧ p.description = st.1.description) →
       ∃ p ∈ oldState.items,
         p.rule_id = st.1.rule_id ∧ p.description = st.1.description ∧
           st.2 = p.checked) ∧
    (∀ p ∈ oldState.items,
       (∀ it ∈ newResult.items,
          ¬(it.rule_id = p.rule_id ∧ it.description = p.description)) →
       ∀ st ∈ mergeStates oldState newResult,
         ¬(st.1.rule_id = p.rule_id ∧ st.1.description = p.description)) ∧
    containsSeq ("<!-- sha:" ++ v ++ " -->").data
      (mergeChecklist oldState newResult v).data = true := by
  refine ⟨?_, ?_, ?_, ?_, ?_⟩
  · unfold mergeStates
    rw [List.map_map]
    have : (Prod.fst ∘ fun it => (it, lookupChecked oldState it)) = id := rfl
    rw [this, List.map_id]
    exact sortItems_perm newResult.items
  · intro st hst hnone
    obtain ⟨it, _, rfl⟩ := List.mem_map.mp hst
    show lookupChecked oldState it = false
    unfold lookupChecked
    rw [List.find?_eq_none.mpr]
    intro p hp
    have := hnone p hp
    simp only [Bool.and_eq_true, beq_iff_eq]
    intro hcontra
    exact this hcontra
  · intro st hst ⟨p₀, hp₀, hkey⟩
    obtain ⟨it, _, rfl⟩ := List.mem_map.mp hst
    have hsome : (oldState.items.find? fun p =>
        p.rule_id == it.rule_id && p.description == it.description).isSome := by
      rw [List.find?_isSome]
      exact ⟨p₀, hp₀, by simp [hkey.1, hkey.2]⟩
    obtain ⟨p, hfind⟩ := Option.isSome_iff_exists.mp hsome
    have hmem := List.mem_of_find?_eq_some hfind
    have hpred := List.find?_some hfind
    simp only [Bool.and_eq_true, beq_iff_eq] at hpred
    refine ⟨p, hmem, hpred.1, hpred.2, ?_⟩
    show lookupChecked oldState it = p.checked
    unfold lookupChecked
    rw [hfind]
  · intro p hp hgone st hst hkey
    obtain ⟨it, hit, rfl⟩ := List.mem_map.mp hst
    exact hgone it (sortItems_mem hit) ⟨hkey.1, hkey.2⟩
  · unfold mergeChecklist joinLines
    show containsSeq ("<!-- sha:" ++ v ++ " -->").data
      (joinChar '\n' ((checklistLines newResult v (lookupChecked oldState)).map
        String.data)) = true
    refine containsSeq_join_of_mem ?_ '\n'
    refine List.mem_map.mpr ⟨"<!-- sha:" ++ v ++ " -->", ?_, rfl⟩
    unfold checklistLines headerLines
    simp

/-- C1 witness: a concrete merge — the old checked flag is carried over for
the matching key, a fresh item starts unchecked, and the new sha is
embedded. -/
theorem mergeChecklist_spec_witness :
    (∀ st ∈ mergeStates
        ⟨"a1", [⟨"env-vars", "Add DATABASE_URL", true⟩], false⟩
        { items := [⟨"env-vars", "check", "Add DATABASE_URL", "why", .high⟩],
          summary := "s" },
       (∃ p ∈ [(⟨"env-vars", "Add DATABASE_URL", true⟩ : ParsedItem)],
          p.rule_id = st.1.rule_id ∧ p.description = st.1.description) →
       ∃ p ∈ [(⟨"env-vars", "Add DATABASE_URL", true⟩ : ParsedItem)],
         p.rule_id = st.1.rule_id ∧ p.description = st.1.description ∧
           st.2 = p.checked) ∧
    containsSeq ("<!-- sha:" ++ "b2" ++ " -->").data
      (mergeChecklist ⟨"a1", [⟨"env-vars", "Add DATABASE_URL", true⟩], false⟩
        { items := [⟨"env-vars", "check", "Add DATABASE_URL", "why", .high⟩],
          summary := "s" } "b2").data = true := by
  have h := mergeChecklist_spec
    ⟨"a1", [⟨"env-vars", "Add DATABASE_URL", true⟩], false⟩
    { items := [⟨"env-vars", "check", "Add DATABASE_URL", "why", .high⟩],
      summary := "s" } "b2"
  exact ⟨h.2.2.1, h.2.2.2.2⟩

/-! ## C6 — parse of render round-trips (for well-formed fields) -/

theorem noNl_of_singleLine {s : String} (h : singleLine s = true) :
    '\n' ∉ s.data := by
  unfold singleLine at h
  rw [Bool.not_eq_eq_eq_not, Bool.not_true] at h
  exact contains_false_iff.mp h

theorem wfItem_fields {it : ChecklistItem} (h : wfItem it = true) :
    singleLine it.rule_id = true ∧ singleLine it.check = true ∧
    singleLine it.description = true ∧ singleLine it.reasoning = true ∧
    '—' ∉ it.description.data := by
  unfold wfItem at h
  simp only [Bool.and_eq_true] at h
  refine ⟨h.1.1.1.1, h.1.1.1.2, h.1.1.2, h.1.2, ?_⟩
  have h2 := h.2
  rw [Bool.not_eq_eq_eq_not, Bool.not_true] at h2
  exact contains_false_iff.mp h2

theorem wfResult_fields {r : AnalysisResult} (h : wfResult r = true) :
    (∀ it ∈ r.items, wfItem it = true) ∧ singleLine r.summary = true ∧
    (∀ f ∈ r.uncovered_files.getD [], wfInfoEntry f = true) ∧
    (∀ fc ∈ r.open_concerns.getD [],
       wfInfoEntry fc.1 = true ∧ singleLine fc.2 = true) := by
  unfold wfResult at h
  simp only [Bool.and_eq_true, List.all_eq_true] at h
  refine ⟨fun it hit => h.1.1.1 it hit, h.1.1.2,
    fun f hf => h.1.2 f hf, fun fc hfc => ?_⟩
  have := h.2 fc hfc
  simpa [Bool.and_eq_true] using this

theorem dropPre_append_of_none (pre : List Char) :
    ∀ (l : List Char), pre.length ≤ l.length → dropPre pre l = none →
      ∀ t, dropPre pre (l ++ t) = none := by
  induction pre with
  | nil => intro l _ h t; exact absurd h (by simp [dropPre])
  | cons p ps ih =>
      intro l hlen h t
      cases l with
      | nil => simp at hlen
      | cons c cs =>
          rw [List.cons_append]
          by_cases hpc : p = c
          · simp only [dropPre, if_pos hpc] at h ⊢
            exact ih cs (by simpa using hlen) h t
          · simp only [dropPre, if_neg hpc]

/-! Line-shape lemmas for the rendered document. -/

theorem parseCheckboxLine_itemLine (it : ChecklistItem) (checked : Bool) :
    parseCheckboxLine
      (((if checked then "- [x] **" else "- [ ] **") ++ it.check ++ "**").data) =
      some checked := by
  cases checked
  · show parseCheckboxLine (("- [ ] **" ++ it.check ++ "**").data) = some false
    unfold parseCheckboxLine
    rw [show ("- [ ] **" ++ it.check ++ "**").data =
        "- [ ] **".data ++ (it.check.data ++ "**".data) by
      simp [String.data_append]]
    rw [dropPre_self]
    simp
  · show parseCheckboxLine (("- [x] **" ++ it.check ++ "**").data) = some true
    unfold parseCheckboxLine
    rw [show ("- [x] **" ++ it.check ++ "**").data =
        "- [x] **".data ++ (it.check.data ++ "**".data) by
      simp [String.data_append]]
    rw [dropPre_append_of_none "- [ ] **".data "- [x] **".data (by decide)
      (by decide), dropPre_self]
    simp

theorem splitFirst_emDash (r : List Char) :
    ∀ (d : List Char), '—' ∉ d →
      splitFirst emDashSep (d ++ emDashSep ++ r) = some (d, r) := by
  intro d
  induction d with
  | nil =>
      intro _
      show splitFirst emDashSep (' ' :: '—' :: ' ' :: r) = some ([], r)
      rw [splitFirst]
      rw [show emDashSep.isPrefixOf (' ' :: '—' :: ' ' :: r) = true from
        isPrefixOf_append_self emDashSep r]
      simp [emDashSep]
  | cons a d ih =>
      intro h
      have ha : '—' ≠ a := fun e => h (e ▸ List.mem_cons_self _ _)
      have hd : '—' ∉ d := fun e => h (List.mem_cons_of_mem _ e)
      show splitFirst emDashSep (a :: (d ++ emDashSep ++ r)) = some (a :: d, r)
      rw [splitFirst]
      have hpre : emDashSep.isPrefixOf (a :: (d ++ emDashSep ++ r)) = false := by
        cases d with
        | nil =>
            show emDashSep.isPrefixOf (a :: ' ' :: '—' :: ' ' :: r) = false
            have : ('—' == ' ') = false := by decide
            simp [emDashSep, List.isPrefixOf, this]
        | cons b d' =>
            show emDashSep.isPrefixOf (a :: b :: (d' ++ emDashSep ++ r)) = false
            have hb : ('—' == b) = false := by
              rw [beq_eq_false_iff_ne]
              exact fun e => hd (e ▸ List.mem_cons_self _ _)
            simp [emDashSep, List.isPrefixOf, hb]
      rw [hpre]
      simp only [Bool.false_eq_true, if_false]
      rw [ih hd]

theorem mkData (s : String) : String.mk s.data = s := rfl

theorem dropPre_cons_same (p : Char) (ps cs : List Char) :
    dropPre (p :: ps) (p :: cs) = dropPre ps cs := by
  simp [dropPre]

theorem dropPre_cons_ne {p c : Char} (ps cs : List Char) (h : p ≠ c) :
    dropPre (p :: ps) (c :: cs) = none := by
  simp [dropPre, h]

theorem splitFirst_emDash' (r d : List Char) (h : '—' ∉ d) :
    splitFirst emDashSep (d ++ (emDashSep ++ r)) = some (d, r) := by
  rw [← List.append_assoc]
  exact splitFirst_emDash r d h

theorem parseBodyLine_itemLine (it : ChecklistItem)
    (h : '—' ∉ it.description.data) :
    parseBodyLine (("  " ++ it.description ++ " — " ++ it.reasoning).data) =
      some it.description := by
  have hdata : ("  " ++ it.description ++ " — " ++ it.reasoning).data =
      "  ".data ++ (it.description.data ++ emDashSep ++ it.reasoning.data) := by
    simp [String.data_append, emDashSep]
  unfold parseBodyLine
  rw [hdata, dropPre_self]
  simp [splitFirst_emDash' it.reasoning.data it.description.data h, mkData]

theorem parseRuleLine_itemLine (it : ChecklistItem) :
    parseRuleLine (("  _Rule: " ++ it.rule_id ++ "_").data) =
      some it.rule_id := by
  have hdata : ("  _Rule: " ++ it.rule_id ++ "_").data =
      "  _Rule: ".data ++ (it.rule_id.data ++ ['_']) := by
    simp [String.data_append]
  unfold parseRuleLine
  rw [hdata, dropPre_self]
  simp [dropSuf_self, mkData]

theorem parseShaLine_shaLine (v : String) :
    parseShaLine (("<!-- sha:" ++ v ++ " -->").data) = some v := by
  have hdata : ("<!-- sha:" ++ v ++ " -->").data =
      "<!-- sha:".data ++ (v.data ++ " -->".data) := by
    simp [String.data_append]
  unfold parseShaLine
  rw [hdata, dropPre_self]
  simp [dropSuf_self, mkData]

/-- A line whose head is not `-` is not a checkable line. -/
theorem parseCheckboxLine_head_ne {c : Char} (cs : List Char) (h : c ≠ '-') :
    parseCheckboxLine (c :: cs) = none := by
  have h1 : dropPre "- [ ] **".data (c :: cs) = none := by
    rw [show ("- [ ] **".data) =
      '-' :: [' ', '[', ' ', ']', ' ', '*', '*'] from by decide]
    exact dropPre_cons_ne _ _ (fun e => h (Eq.symm e))
  have h2 : dropPre "- [x] **".data (c :: cs) = none := by
    rw [show ("- [x] **".data) =
      '-' :: [' ', '[', 'x', ']', ' ', '*', '*'] from by decide]
    exact dropPre_cons_ne _ _ (fun e => h (Eq.symm e))
  unfold parseCheckboxLine
  rw [h1, h2]
  rfl

/-- A `- `-prefixed informational entry whose payload does not start with
`[` is not a checkable line. -/
theorem parseCheckboxLine_dash_entry (rest : List Char)
    (h : rest.head? ≠ some '[') :
    parseCheckboxLine ('-' :: ' ' :: rest) = none := by
  cases rest with
  | nil => decide
  | cons c rest' =>
      have hc : '[' ≠ c := fun e => h (by rw [List.head?_cons, ← e])
      have h1 : dropPre "- [ ] **".data ('-' :: ' ' :: c :: rest') = none := by
        rw [show ("- [ ] **".data) =
          '-' :: ' ' :: '[' :: [' ', ']', ' ', '*', '*'] from by decide,
          dropPre_cons_same, dropPre_cons_same]
        exact dropPre_cons_ne _ _ hc
      have h2 : dropPre "- [x] **".data ('-' :: ' ' :: c :: rest') = none := by
        rw [show ("- [x] **".data) =
          '-' :: ' ' :: '[' :: ['x', ']', ' ', '*', '*'] from by decide,
          dropPre_cons_same, dropPre_cons_same]
        exact dropPre_cons_ne _ _ hc
      unfold parseCheckboxLine
      rw [h1, h2]
      rfl

/-! Splitting on the line separator inverts joining separator-free lines. -/

theorem splitChar_not_mem (c : Char) :
    ∀ (p : List Char), c ∉ p → splitChar c p = [p] := by
  intro p
  induction p with
  | nil => intro _; rfl
  | cons x xs ih =>
      intro h
      have hx : x ≠ c := fun e => h (e ▸ List.mem_cons_self _ _)
      have hxs : c ∉ xs := fun e => h (List.mem_cons_of_mem _ e)
      rw [splitChar, if_neg hx, ih hxs]

theorem splitChar_append_cons (c : Char) (t : List Char) :
    ∀ (p : List Char), c ∉ p →
      splitChar c (p ++ c :: t) = p :: splitChar c t := by
  intro p
  induction p with
  | nil =>
      intro _
      show splitChar c (c :: t) = [] :: splitChar c t
      rw [splitChar, if_pos rfl]
  | cons x xs ih =>
      intro h
      have hx : x ≠ c := fun e => h (e ▸ List.mem_cons_self _ _)
      have hxs : c ∉ xs := fun e => h (List.mem_cons_of_mem _ e)
      show splitChar c (x :: (xs ++ c :: t)) = (x :: xs) :: splitChar c t
      rw [splitChar, if_neg hx, ih hxs]

theorem splitChar_joinChar (c : Char) :
    ∀ (ps : List (List Char)), ps ≠ [] → (∀ p ∈ ps, c ∉ p) →
      splitChar c (joinChar c ps) = ps := by
  intro ps
  induction ps with
  | nil => intro h _; exact absurd rfl h
  | cons p qs ih =>
      intro _ h
      cases qs with
      | nil =>
          show splitChar c p = [p]
          exact splitChar_not_mem c p (h p (List.mem_cons_self _ _))
      | cons q qs2 =>
          rw [joinChar_cons,
            splitChar_append_cons c _ p (h p (List.mem_cons_self _ _)),
            ih (by simp) (fun r hr => h r (List.mem_cons_of_mem _ hr))]

/-! Structure of `parseItemsLines` on the rendered line list. -/

theorem parseItemsLines_skip (l : List Char) (rest : List (List Char))
    (h : parseCheckboxLine l = none) :
    parseItemsLines (l :: rest) = parseItemsLines rest := by
  cases rest with
  | nil => rfl
  | cons a t =>
      cases t with
      | nil => rfl
      | cons b t2 => simp only [parseItemsLines, h]

theorem parseItemsLines_block (l1 l2 l3 : List Char) (rest : List (List Char))
    (chk : Bool) (desc rid : String)
    (h1 : parseCheckboxLine l1 = some chk)
    (h2 : parseBodyLine l2 = some desc)
    (h3 : parseRuleLine l3 = some rid) :
    parseItemsLines (l1 :: l2 :: l3 :: rest) =
      ⟨rid, desc, chk⟩ :: parseItemsLines rest := by
  simp only [parseItemsLines, h1, h2, h3]

theorem parseItemsLines_skipAll (ls : List (List Char))
    (h : ∀ l ∈ ls, parseCheckboxLine l = none) :
    parseItemsLines ls = [] := by
  induction ls with
  | nil => rfl
  | cons l t ih =>
      rw [parseItemsLines_skip l t (h l (List.mem_cons_self _ _))]
      exact ih fun r hr => h r (List.mem_cons_of_mem _ hr)

theorem parseItemsLines_items (items : List ChecklistItem)
    (hwf : ∀ it ∈ items, wfItem it = true) (tail : List (List Char)) :
    parseItemsLines
        ((items.flatMap fun it => (itemLines it false).map String.data) ++ tail) =
      items.map (fun it => ⟨it.rule_id, it.description, false⟩) ++
        parseItemsLines tail := by
  induction items with
  | nil => simp
  | cons it its ih =>
      have hw := wfItem_fields (hwf it (List.mem_cons_self _ _))
      have hb : ((it :: its).flatMap fun i => (itemLines i false).map String.data)
            ++ tail =
          ((if false then "- [x] **" else "- [ ] **") ++ it.check ++ "**").data ::
          ("  " ++ it.description ++ " — " ++ it.reasoning).data ::
          ("  _Rule: " ++ it.rule_id ++ "_").data ::
          ((its.flatMap fun i => (itemLines i false).map String.data) ++ tail) := by
        rw [List.flatMap_cons]
        rfl
      rw [hb, parseItemsLines_block _ _ _ _ false it.description it.rule_id
        (parseCheckboxLine_itemLine it false)
        (parseBodyLine_itemLine it hw.2.2.2.2) (parseRuleLine_itemLine it),
        ih (fun i hi => hwf i (List.mem_cons_of_mem _ hi))]
      rfl

/-! Helpers for the non-checkable lines. -/

theorem wfInfoEntry_fields {s : String} (h : wfInfoEntry s = true) :
    singleLine s = true ∧ s.data.head? ≠ some '[' := by
  unfold wfInfoEntry at h
  rw [Bool.and_eq_true] at h
  refine ⟨h.1, ?_⟩
  have h2 := h.2
  rw [bne_iff_ne] at h2
  exact h2

theorem head?_append_ne {c : Char} {a b : List Char}
    (ha : a.head? ≠ some c) (hb : b.head? ≠ some c) :
    (a ++ b).head? ≠ some c := by
  cases a with
  | nil => simpa using hb
  | cons x xs => simpa using ha

theorem not_mem_data_append {c : Char} {a b : String}
    (ha : c ∉ a.data) (hb : c ∉ b.data) : c ∉ (a ++ b).data := by
  rw [String.data_append]
  intro h
  rcases List.mem_append.mp h with h | h
  exacts [ha h, hb h]

theorem map_flatMap' {α β γ : Type} (g : β → γ) (f : α → List β) (l : List α) :
    (l.flatMap f).map g = l.flatMap fun a => (f a).map g := by
  induction l with
  | nil => rfl
  | cons a t ih => simp [List.flatMap_cons, List.map_append, ih]

theorem filterMap_head_skip {α β : Type} (f : α → Option β) (a : α)
    (l : List α) (h : f a = none) : (a :: l).filterMap f = l.filterMap f := by
  simp [List.filterMap_cons, h]

theorem filterMap_head_some {α β : Type} (f : α → Option β) (a : α) (b : β)
    (l : List α) (h : f a = some b) :
    (a :: l).filterMap f = b :: l.filterMap f := by
  simp [List.filterMap_cons, h]

theorem sha_line_not_checkbox (v : String) :
    parseCheckboxLine (("<!-- sha:" ++ v ++ " -->").data) = none := by
  have h : ("<!-- sha:" ++ v ++ " -->").data =
      '<' :: ("!-- sha:".data ++ (v.data ++ " -->".data)) := by
    simp [String.data_append]
  rw [h]
  exact parseCheckboxLine_head_ne _ (by decide)

theorem summary_line_not_checkbox (s : String) :
    parseCheckboxLine (("> " ++ s).data) = none := by
  have h : ("> " ++ s).data = '>' :: (' ' :: s.data) := by
    simp [String.data_append]
  rw [h]
  exact parseCheckboxLine_head_ne _ (by decide)

theorem uncovered_line_not_checkbox {f : String} (hf : wfInfoEntry f = true) :
    parseCheckboxLine (("- " ++ f).data) = none := by
  have h : ("- " ++ f).data = '-' :: ' ' :: f.data := by
    simp [String.data_append]
  rw [h]
  exact parseCheckboxLine_dash_entry _ (wfInfoEntry_fields hf).2

theorem concern_line_not_checkbox {a b : String} (ha : wfInfoEntry a = true) :
    parseCheckboxLine (("- " ++ a ++ ": " ++ b).data) = none := by
  have h : ("- " ++ a ++ ": " ++ b).data =
      '-' :: ' ' :: (a.data ++ (':' :: ' ' :: b.data)) := by
    simp [String.data_append]
  rw [h]
  refine parseCheckboxLine_dash_entry _
    (head?_append_ne (wfInfoEntry_fields ha).2 ?_)
  intro e
  rw [List.head?_cons] at e
  exact absurd (Option.some.inj e) (by decide)

theorem infoLines_not_checkbox (r : AnalysisResult)
    (hunc : ∀ f ∈ r.uncovered_files.getD [], wfInfoEntry f = true)
    (hconc : ∀ fc ∈ r.open_concerns.getD [], wfInfoEntry fc.1 = true) :
    ∀ l ∈ (infoLines r).map String.data, parseCheckboxLine l = none := by
  intro l hl
  simp only [infoLines] at hl
  split at hl
  · simp at hl
  · rw [List.map_append, List.map_append] at hl
    rcases List.mem_append.mp hl with hl | hl
    · rcases List.mem_append.mp hl with hl | hl
      · rcases List.mem_cons.mp hl with rfl | hl
        · decide
        · rcases List.mem_cons.mp hl with rfl | hl
          · decide
          · exact absurd hl (List.not_mem_nil l)
      · obtain ⟨s, hs, rfl⟩ := List.mem_map.mp hl
        obtain ⟨f, hf, rfl⟩ := List.mem_map.mp hs
        exact uncovered_line_not_checkbox (hunc f hf)
    · obtain ⟨s, hs, rfl⟩ := List.mem_map.mp hl
      obtain ⟨fc, hfc, rfl⟩ := List.mem_map.mp hs
      exact concern_line_not_checkbox (hconc fc hfc)

theorem footerLines_not_checkbox :
    ∀ l ∈ footerLines.map String.data, parseCheckboxLine l = none := by
  intro l hl
  rcases List.mem_cons.mp hl with rfl | hl
  · decide
  · rcases List.mem_cons.mp hl with rfl | hl
    · decide
    · rcases List.mem_cons.mp hl with rfl | hl
      · decide
      · exact absurd hl (List.not_mem_nil l)

theorem parseChecklist_eq_of_marker (text : String)
    (h : containsSeq BOT_MARKER.data text.data = true) :
    parseChecklist text =
      some ⟨((((splitChar '\n' text.data).filterMap parseShaLine).head?).getD ""),
            parseItemsLines (splitChar '\n' text.data),
            (parseItemsLines (splitChar '\n' text.data)).all
              (fun p => p.checked)⟩ := by
  unfold parseChecklist
  rw [h]
  rfl

theorem checklistLines_map_data (r : AnalysisResult) (v : String) :
    (checklistLines r v (fun _ => false)).map String.data =
      BOT_MARKER.data :: ("<!-- sha:" ++ v ++ " -->").data ::
      "## Deploy Checklist".data :: "".data :: ("> " ++ r.summary).data ::
      "".data ::
      (((sortItems r.items).flatMap
          fun it => (itemLines it false).map String.data) ++
        ((infoLines r).map String.data ++ footerLines.map String.data)) := by
  unfold checklistLines headerLines
  simp [List.map_append, map_flatMap', List.append_assoc]

theorem parseItemsLines_checklist (r : AnalysisResult) (v : String)
    (hit : ∀ it ∈ r.items, wfItem it = true)
    (hunc : ∀ f ∈ r.uncovered_files.getD [], wfInfoEntry f = true)
    (hconc : ∀ fc ∈ r.open_concerns.getD [], wfInfoEntry fc.1 = true) :
    parseItemsLines ((checklistLines r v (fun _ => false)).map String.data) =
      (sortItems r.items).map
        fun it => ⟨it.rule_id, it.description, false⟩ := by
  have htail : parseItemsLines
      ((infoLines r).map String.data ++ footerLines.map String.data) = [] :=
    parseItemsLines_skipAll _ (fun l hl => by
      rcases List.mem_append.mp hl with hl | hl
      · exact infoLines_not_checkbox r hunc hconc l hl
      · exact footerLines_not_checkbox l hl)
  rw [checklistLines_map_data,
    parseItemsLines_skip BOT_MARKER.data _ (by decide),
    parseItemsLines_skip _ _ (sha_line_not_checkbox v),
    parseItemsLines_skip "## Deploy Checklist".data _ (by decide),
    parseItemsLines_skip "".data _ (by decide),
    parseItemsLines_skip _ _ (summary_line_not_checkbox r.summary),
    parseItemsLines_skip "".data _ (by decide),
    parseItemsLines_items (sortItems r.items)
      (fun it hi => hit it (sortItems_mem hi)) _,
    htail, List.append_nil]

theorem checklistLines_no_newline (r : AnalysisResult) (v : String)
    (hwf : wfResult r = true) (hv : singleLine v = true) :
    ∀ p ∈ (checklistLines r v (fun _ => false)).map String.data, '\n' ∉ p := by
  obtain ⟨hit, hsum, hunc, hconc⟩ := wfResult_fields hwf
  intro p hp
  obtain ⟨s, hs, rfl⟩ := List.mem_map.mp hp
  unfold checklistLines at hs
  rcases List.mem_append.mp hs with hs | hs
  · rcases List.mem_append.mp hs with hs | hs
    · rcases List.mem_append.mp hs with hs | hs
      · unfold headerLines at hs
        rcases List.mem_cons.mp hs with rfl | hs
        · decide
        rcases List.mem_cons.mp hs with rfl | hs
        · exact not_mem_data_append
            (not_mem_data_append (by decide) (noNl_of_singleLine hv)) (by decide)
        rcases List.mem_cons.mp hs with rfl | hs
        · decide
        rcases List.mem_cons.mp hs with rfl | hs
        · decide
        rcases List.mem_cons.mp hs with rfl | hs
        · exact not_mem_data_append (by decide) (noNl_of_singleLine hsum)
        rcases List.mem_cons.mp hs with rfl | hs
        · decide
        exact absurd hs (List.not_mem_nil s)
      · obtain ⟨it, hitm, hsl⟩ := List.mem_flatMap.mp hs
        have hw := wfItem_fields (hit it (sortItems_mem hitm))
        rcases List.mem_cons.mp hsl with rfl | hsl
        · exact not_mem_data_append
            (not_mem_data_append
              (show '\n' ∉ ("- [ ] **" : String).data from by decide)
              (noNl_of_singleLine hw.2.1))
            (by decide)
        rcases List.mem_cons.mp hsl with rfl | hsl
        · exact not_mem_data_append
            (not_mem_data_append
              (not_mem_data_append (by decide) (noNl_of_singleLine hw.2.2.1))
              (by decide))
            (noNl_of_singleLine hw.2.2.2.1)
        rcases List.mem_cons.mp hsl with rfl | hsl
        · exact not_mem_data_append
            (not_mem_data_append (by decide) (noNl_of_singleLine hw.1))
            (by decide)
        exact absurd hsl (List.not_mem_nil s)
    · simp only [infoLines] at hs
      split at hs
      · exact absurd hs (List.not_mem_nil s)
      · rcases List.mem_append.mp hs with hs | hs
        · rcases List.mem_append.mp hs with hs | hs
          · rcases List.mem_cons.mp hs with rfl | hs
            · decide
            rcases List.mem_cons.mp hs with rfl | hs
            · decide
            exact absurd hs (List.not_mem_nil s)
          · obtain ⟨f, hf, rfl⟩ := List.mem_map.mp hs
            exact not_mem_data_append (by decide)
              (noNl_of_singleLine (wfInfoEntry_fields (hunc f hf)).1)
        · obtain ⟨fc, hfc, rfl⟩ := List.mem_map.mp hs
          exact not_mem_data_append
            (not_mem_data_append
              (not_mem_data_append (by decide)
                (noNl_of_singleLine (wfInfoEntry_fields (hconc fc hfc).1).1))
              (by decide))
            (noNl_of_singleLine (hconc fc hfc).2)
  · rcases List.mem_cons.mp hs with rfl | hs
    · decide
    rcases List.mem_cons.mp hs with rfl | hs
    · decide
    rcases List.mem_cons.mp hs with rfl | hs
    · decide
    exact absurd hs (List.not_mem_nil s)

theorem filterMap_sha_checklist (r : AnalysisResult) (v : String) :
    (((checklistLines r v (fun _ => false)).map String.data).filterMap
        parseShaLine).head? = some v := by
  rw [checklistLines_map_data,
    filterMap_head_skip parseShaLine BOT_MARKER.data _ (by decide),
    filterMap_head_some parseShaLine _ v _ (parseShaLine_shaLine v)]
  rfl

/-- C6: for a well-formed analysis result (single-line fields, no em-dash
in any description, informational entries not starting with `[`) and a
single-line version id, parsing the rendered checklist round-trips: the
parse is not absent, its extracted sha equals the version id, and its items
carry the same multiset of (rule id, description, checked = false) triples
as the result's items. -/
theorem parse_generate_roundtrip (result : AnalysisResult) (v : String)
    (hwf : wfResult result = true) (hv : singleLine v = true) :
    ∃ st, parseChecklist (generateChecklist result v) = some st ∧
      st.sha = v ∧
      (st.items.map fun p => (p.rule_id, p.description, p.checked)).Perm
        (result.items.map fun it => (it.rule_id, it.description, false)) := by
  obtain ⟨hit, hsum, hunc, hconc2⟩ := wfResult_fields hwf
  have hconc : ∀ fc ∈ result.open_concerns.getD [], wfInfoEntry fc.1 = true :=
    fun fc h => (hconc2 fc h).1
  have htext : (generateChecklist result v).data =
      joinChar '\n'
        ((checklistLines result v (fun _ => false)).map String.data) := rfl
  have hne : (checklistLines result v (fun _ => false)).map String.data ≠ [] := by
    rw [checklistLines_map_data]
    exact List.cons_ne_nil _ _
  have hsplit : splitChar '\n' (generateChecklist result v).data =
      (checklistLines result v (fun _ => false)).map String.data := by
    rw [htext]
    exact splitChar_joinChar '\n' _ hne
      (checklistLines_no_newline result v hwf hv)
  have hmarker :
      containsSeq BOT_MARKER.data (generateChecklist result v).data = true := by
    rw [htext]
    refine containsSeq_join_of_mem ?_ '\n'
    rw [checklistLines_map_data]
    exact List.mem_cons_self _ _
  refine ⟨_, parseChecklist_eq_of_marker _ hmarker, ?_, ?_⟩
  · show ((((splitChar '\n'
        (generateChecklist result v).data).filterMap
          parseShaLine).head?).getD "") = v
    rw [hsplit, filterMap_sha_checklist]
    rfl
  · show ((parseItemsLines (splitChar '\n'
        (generateChecklist result v).data)).map
          fun p => (p.rule_id, p.description, p.checked)).Perm
        (result.items.map fun it => (it.rule_id, it.description, false))
    rw [hsplit, parseItemsLines_checklist result v hit hunc hconc,
      List.map_map]
    exact (sortItems_perm result.items).map _

/-- C6 counterexample: for the result whose single item has the two-line
description `"a\nb"`, the rendered document parses back with an empty item
list, while the result has one item — the universally quantified round trip
of the original claim fails. -/
theorem parse_generate_counterexample :
    (parseChecklist (generateChecklist c6Result "v")).map
        (fun st => st.items.map fun p => (p.rule_id, p.description, p.checked)) =
      some [] ∧
    c6Result.items.map (fun it => (it.rule_id, it.description, false)) ≠ [] :=
  ⟨by decide, by decide⟩

/-- C6 witness: the amended round trip at a concrete well-formed result and
version id. -/
theorem parse_generate_roundtrip_witness :
    wfResult c6WfResult = true ∧ singleLine "v1" = true ∧
    ∃ st, parseChecklist (generateChecklist c6WfResult "v1") = some st ∧
      st.sha = "v1" ∧
      (st.items.map fun p => (p.rule_id, p.description, p.checked)).Perm
        (c6WfResult.items.map fun it => (it.rule_id, it.description, false)) :=
  ⟨by decide, by decide,
    parse_generate_roundtrip c6WfResult "v1" (by decide) (by decide)⟩

end DeployChecklistBot
